import Mathlib

/-!
Verification development for the TDAD convergence-and-verification engine.

The definitions below are shallow embeddings of the Python source:
- tdadlib/harness/trace.py (ToolTrace)
- tdadlib/mutationsmith/predicates.py (predicate evaluator)
- scripts/compile_prompt.py (failing-id extraction, convergence loop)
- scripts/testsmith.py (summary parsing, failure classification)
- scripts/run_mutation_testing.py (mutation verification engine)

Python strings are modeled as Lean String (ASCII character classes are used
where Python regular expressions use Unicode-aware classes; all inputs of
interest are ASCII). Python dicts appearing in predicate specifications are
modeled as structures with one Option field per supported key plus a list of
unknown keys; JSON values are modeled by an inductive type.
-/

set_option maxRecDepth 16384

namespace Tdad

/-! ### Character classes and low-level string scanning -/

/-- ASCII reading of the regex class backslash-w (word character). -/
def isWordChar (c : Char) : Bool :=
  c.isAlphanum || c = '_'

/-- The regex whitespace class: space, tab, newline, carriage return,
vertical tab (11) and form feed (12). -/
def isSpaceRe (c : Char) : Bool :=
  c = ' ' || c = '\t' || c = '\n' || c = '\r' || c.toNat = 11 || c.toNat = 12

/-- The character class used by the failing-id regex in
extract_failing_test_ids: word chars plus / . : and - . -/
def isClass1 (c : Char) : Bool :=
  isWordChar c || c = '/' || c = '.' || c = ':' || c = '-'

/-- Does the character list start with the given pattern? -/
def startsWithChars : List Char → List Char → Bool
  | [], _ => true
  | _ :: _, [] => false
  | n :: ns, h :: hs => n = h && startsWithChars ns hs

/-- Substring containment on character lists (Python in-operator on str). -/
def containsChars : List Char → List Char → Bool
  | [], needle => startsWithChars needle []
  | h :: hs, needle => startsWithChars needle (h :: hs) || containsChars hs needle

/-- Python substring test: needle in haystack. -/
def strContains (haystack needle : String) : Bool :=
  containsChars haystack.data needle.data

/-! ### C1: trace order-violation check
Embeds _check_trace_order_violation from tdadlib/mutationsmith/predicates.py.
The Python loop records the first index at which each of the two names occurs.
-/

/-- First index of target in the list, mirroring the enumerate loop that sets
an index only the first time the name matches. -/
def firstIndexOfAux (target : String) : Nat → List String → Option Nat
  | _, [] => none
  | i, n :: rest => if n = target then some i else firstIndexOfAux target (i + 1) rest

def firstIndexOf (names : List String) (target : String) : Option Nat :=
  firstIndexOfAux target 0 names

/-- Embedding of _check_trace_order_violation: must_not_happen is the pair
[a, b]; the result is true iff both names occur and the first occurrence of a
precedes the first occurrence of b. Any list of length other than two gives
false. -/
def check_trace_order_violation (names : List String) (must_not_happen : List String) : Bool :=
  match must_not_happen with
  | [a, b] =>
    match firstIndexOf names a, firstIndexOf names b with
    | some i, some j => decide (i < j)
    | _, _ => false
  | _ => false

theorem firstIndexOfAux_eq_none_of_not_mem (target : String) (names : List String)
    (h : target ∉ names) : ∀ i, firstIndexOfAux target i names = none := by
  induction names with
  | nil => intro i; rfl
  | cons n rest ih =>
    intro i
    simp only [List.mem_cons, not_or] at h
    unfold firstIndexOfAux
    rw [if_neg (show ¬ n = target from fun hn => h.1 hn.symm)]
    exact ih h.2 (i + 1)

theorem firstIndexOf_eq_none_of_not_mem (names : List String) (target : String)
    (h : target ∉ names) : firstIndexOf names target = none :=
  firstIndexOfAux_eq_none_of_not_mem target names h 0

/-- C1 counterexample: the claim says order_violation(A, B) on the trace
[A, X, B] is false, but the source returns true there (a occurs before b is
exactly the violation the check reports). -/
theorem C1_counterexample :
    check_trace_order_violation ["A", "X", "B"] ["A", "B"] = true := by
  decide

/-- C1 (amended): on a trace [a, x, b] with a and b distinct,
order_violation(a, b) is true; on [b, x, a] it is false; and on any trace in
which a or b never appears it is false. -/
theorem C1_order_violation_amended :
    (∀ a x b : String, a ≠ b →
      check_trace_order_violation [a, x, b] [a, b] = true) ∧
    (∀ a x b : String,
      check_trace_order_violation [b, x, a] [a, b] = false) ∧
    (∀ (names : List String) (a b : String), a ∉ names ∨ b ∉ names →
      check_trace_order_violation names [a, b] = false) := by
  refine ⟨?_, ?_, ?_⟩
  · intro a x b hab
    simp only [check_trace_order_violation, firstIndexOf, firstIndexOfAux, if_pos rfl]
    by_cases hxb : x = b
    · by_cases hab2 : a = b
      · exact absurd hab2 hab
      · simp [if_neg (fun h => hab h), hxb]
    · by_cases hab2 : a = b
      · exact absurd hab2 hab
      · simp [if_neg (fun h => hab h), if_neg (fun h => hxb h)]
  · intro a x b
    simp only [check_trace_order_violation, firstIndexOf, firstIndexOfAux]
    by_cases hba : b = a
    · subst hba
      simp
    · simp only [if_pos rfl, if_neg (fun h => hba h)]
      by_cases hxa : x = a
      · simp [hxa]
      · by_cases hba2 : a = a
        · simp [if_neg (fun h => hxa h)]
        · exact absurd rfl hba2
  · intro names a b h
    simp only [check_trace_order_violation]
    rcases h with h | h
    · rw [firstIndexOf_eq_none_of_not_mem names a h]
    · rw [firstIndexOf_eq_none_of_not_mem names b h]
      cases firstIndexOf names a <;> rfl

/-- C1 witness: the amended theorem applied at concrete names. -/
theorem C1_order_violation_amended_witness :
    check_trace_order_violation ["A", "X", "B"] ["A", "B"] = true ∧
    check_trace_order_violation ["B", "X", "A"] ["A", "B"] = false ∧
    check_trace_order_violation ["X"] ["A", "B"] = false := by
  refine ⟨C1_order_violation_amended.1 "A" "X" "B" (by decide),
    C1_order_violation_amended.2.1 "A" "X" "B",
    C1_order_violation_amended.2.2 ["X"] "A" "B" (Or.inl (by decide))⟩

/-! ### C3: failing-id extraction and summary parsing
Embeds extract_failing_test_ids from scripts/compile_prompt.py, which applies
re.findall with the pattern: FAILED, one or more whitespace, then a captured
group of one or more class1 characters followed by two colons followed by one
or more word characters. The matchers below implement exactly that pattern
(greedy with backtracking, leftmost non-overlapping matches).
-/

/-- Match two colons followed by one or more (greedily consumed) word
characters at the head of the input; returns the consumed characters and
the remainder. -/
def matchColonsWord : List Char → Option (List Char × List Char)
  | ':' :: ':' :: rest =>
    match rest.span isWordChar with
    | (ws, rest2) => if ws.isEmpty then none else some (':' :: ':' :: ws, rest2)
  | _ => none

/-- Match class1-star then two colons then word-plus, preferring the longest
class1 run (regex greediness with backtracking). -/
def matchAfterOne : List Char → Option (List Char × List Char)
  | [] => none
  | c :: rest =>
    if isClass1 c then
      match matchAfterOne rest with
      | some (g, r) => some (c :: g, r)
      | none => matchColonsWord (c :: rest)
    else
      matchColonsWord (c :: rest)

/-- Match the captured group: class1-plus, two colons, word-plus. -/
def matchGroup : List Char → Option (List Char × List Char)
  | [] => none
  | c :: rest =>
    if isClass1 c then
      match matchAfterOne rest with
      | some (g, r) => some (c :: g, r)
      | none => none
    else none

/-- Match the whole pattern at the current position: the literal FAILED, one
or more whitespace characters, then the captured group. -/
def matchFailedAt : List Char → Option (List Char × List Char)
  | 'F' :: 'A' :: 'I' :: 'L' :: 'E' :: 'D' :: rest =>
    match rest with
    | c :: rest2 =>
      if isSpaceRe c then
        matchGroup (rest2.span isSpaceRe).2
      else none
    | [] => none
  | _ => none

/-- Non-overlapping leftmost scan, as re.findall: try the pattern at each
position; on a match, emit the group and resume after the match. The fuel
argument (instantiated with the input length) bounds the recursion; every
step consumes at least one character, so the bound is never hit early. -/
def findallFailedAux : Nat → List Char → List String
  | 0, _ => []
  | fuel + 1, cs =>
    match matchFailedAt cs with
    | some (g, r) => String.mk g :: findallFailedAux fuel r
    | none =>
      match cs with
      | [] => []
      | _ :: rest => findallFailedAux fuel rest

def findallFailed (cs : List Char) : List String :=
  findallFailedAux cs.length cs

/-- Deduplicate preserving first-seen order (the seen set and order list of
extract_failing_test_ids). -/
def dedupFirstSeenAux (seen : List String) : List String → List String
  | [] => []
  | x :: rest =>
    if seen.contains x then dedupFirstSeenAux seen rest
    else x :: dedupFirstSeenAux (x :: seen) rest

def dedupFirstSeen (xs : List String) : List String :=
  dedupFirstSeenAux [] xs

/-- Embedding of extract_failing_test_ids. -/
def extract_failing_test_ids (output : String) : List String :=
  dedupFirstSeen (findallFailed output.data)

/-! Summary parsing, embedding parse_pytest_summary from scripts/testsmith.py. -/

/-- Attempt to match digits-plus, whitespace-plus, then the literal word at
the head of the input; returns the digit run on success. -/
def countWordHere (word : List Char) (cs : List Char) : Option (List Char) :=
  match cs.span Char.isDigit with
  | (ds, rest) =>
    if ds.isEmpty then none
    else
      match rest.span isSpaceRe with
      | (sp, rest2) =>
        if sp.isEmpty then none
        else if startsWithChars word rest2 then some ds else none

/-- Leftmost search for digits-plus whitespace-plus word (re.search). -/
def searchCountWord (word : List Char) : List Char → Option (List Char)
  | [] => none
  | c :: rest =>
    match countWordHere word (c :: rest) with
    | some ds => some ds
    | none => searchCountWord word rest

/-- Decimal value of a digit run. -/
def natOfDigits (ds : List Char) : Nat :=
  ds.foldl (fun acc c => acc * 10 + (c.toNat - 48)) 0

/-- Python str.strip: drop whitespace from both ends. -/
def stripChars (cs : List Char) : List Char :=
  ((cs.dropWhile isSpaceRe).reverse.dropWhile isSpaceRe).reverse

/-- Python str.split on a newline: every newline separates, empty pieces are
kept. -/
def splitNlAux (acc : List Char) : List Char → List (List Char)
  | [] => [acc.reverse]
  | '\n' :: rest => acc.reverse :: splitNlAux [] rest
  | c :: rest => splitNlAux (c :: acc) rest

def splitNl (cs : List Char) : List (List Char) :=
  splitNlAux [] cs

/-- Embedding of parse_pytest_summary: pick the last line mentioning passed,
failed or error; read the passed count, the failed count, and add the errors
count (errors are counted as failures). Empty output gives (0, 0). -/
def parse_pytest_summary (output : String) : Nat × Nat :=
  if output = "" then (0, 0)
  else
    let lines := splitNl (stripChars output.data)
    let summary_lines := lines.filter fun l =>
      containsChars l "passed".data || containsChars l "failed".data ||
        containsChars l "error".data
    match summary_lines.getLast? with
    | none => (0, 0)
    | some summary =>
      let passed := ((searchCountWord "passed".data summary).map natOfDigits).getD 0
      let failed := ((searchCountWord "failed".data summary).map natOfDigits).getD 0
      let failed := failed + (((searchCountWord "error".data summary).map natOfDigits).getD 0)
      (passed, failed)

/-- C3 counterexample: on the report of scenario A the extractor returns the
empty list, not the claimed singleton, because the captured group requires a
double colon inside the identifier and the bare id t1 has none. -/
theorem C3_counterexample :
    extract_failing_test_ids "FAILED t1\n...\nFAILED t1\n1 failed, 2 passed" = [] ∧
    extract_failing_test_ids "FAILED t1\n...\nFAILED t1\n1 failed, 2 passed" ≠ ["t1"] := by
  constructor
  · decide
  · decide

/-- C3 (amended): on the scenario A report the classifier yields no failing
ids (the extractor only matches pytest node ids containing a double colon)
together with passed_count 2 and failed_count 1; on the same report with the
node-id-shaped identifier a.py::t1, the repeated id is deduplicated into its
first-seen position and the counts are unchanged. -/
theorem C3_outcome_amended :
    extract_failing_test_ids "FAILED t1\n...\nFAILED t1\n1 failed, 2 passed" = [] ∧
    parse_pytest_summary "FAILED t1\n...\nFAILED t1\n1 failed, 2 passed" = (2, 1) ∧
    extract_failing_test_ids "FAILED a.py::t1\n...\nFAILED a.py::t1\n1 failed, 2 passed"
      = ["a.py::t1"] ∧
    parse_pytest_summary "FAILED a.py::t1\n...\nFAILED a.py::t1\n1 failed, 2 passed"
      = (2, 1) := by
  refine ⟨by decide, ?_, by decide, ?_⟩
  · decide
  · decide

/-! ### C4: failure classification
Embeds classify_test_failures from scripts/testsmith.py: a line scanner that
opens a failure block at each FAILED header, accumulates subsequent lines as
error text, and on the next header (or end of input) sorts the finished block
into infrastructure bugs or expected failures by signature matching. A block
is only processed when its id is truthy and at least one error line was
collected; this is where the totality claim fails.
-/

def infra_patterns : List String :=
  ["AttributeError:", "NameError:", "ImportError:", "ModuleNotFoundError:",
   "TypeError:", "SyntaxError:", "IndentationError:", "fixture \x27", "F821", "E999"]

def isInfraText (errorText : List Char) : Bool :=
  infra_patterns.any fun p => containsChars errorText p.data

/-- Python line.replace applied to the FAILED marker: remove every
occurrence of the seven characters F A I L E D space. -/
def removeFailedMarker : List Char → List Char
  | 'F' :: 'A' :: 'I' :: 'L' :: 'E' :: 'D' :: ' ' :: rest => removeFailedMarker rest
  | c :: rest => c :: removeFailedMarker rest
  | [] => []

/-- The id stored for a header line: strip the FAILED marker and whitespace. -/
def headerId (line : List Char) : List Char :=
  stripChars (removeFailedMarker line)

/-- Header detection: line starts with the FAILED marker, or contains both a
double-colon test marker and the word FAILED (Python operator precedence
groups the conjunction on the right). -/
def isFailureHeader (line : List Char) : Bool :=
  startsWithChars "FAILED ".data line ||
    (containsChars line "::test_".data && containsChars line "FAILED".data)

/-- Python truthiness of the optional current-test string. -/
def ctTruthy : Option (List Char) → Bool
  | none => false
  | some t => !t.isEmpty

/-- Python newline join of the collected error lines. -/
def joinNl : List (List Char) → List Char
  | [] => []
  | [l] => l
  | l :: rest => l ++ '\n' :: joinNl rest

/-- Process a finished failure block: only blocks with a truthy id and at
least one collected error line are placed, into the infrastructure bucket
when a signature matches and into the expected bucket otherwise. -/
def processBlock (ct : Option (List Char)) (errLines : List (List Char))
    (acc : List (List Char) × List (List Char)) : List (List Char) × List (List Char) :=
  match ct with
  | some t =>
    if !t.isEmpty && !errLines.isEmpty then
      let errorText := joinNl errLines
      if isInfraText errorText then (acc.1 ++ [t ++ ':' :: '\n' :: errorText], acc.2)
      else (acc.1, acc.2 ++ [t])
    else acc
  | none => acc

/-- The line scanner of classify_test_failures. -/
def classifyGo : List (List Char) → Option (List Char) → List (List Char) →
    List (List Char) × List (List Char) → List (List Char) × List (List Char)
  | [], ct, errLines, acc => processBlock ct errLines acc
  | line :: rest, ct, errLines, acc =>
    if isFailureHeader line then
      classifyGo rest (some (headerId line)) [] (processBlock ct errLines acc)
    else if ctTruthy ct then classifyGo rest ct (errLines ++ [line]) acc
    else classifyGo rest ct errLines acc

/-- Embedding of classify_test_failures: returns (infrastructure_bugs,
expected_failures). -/
def classify_test_failures (output : String) : List String × List String :=
  match classifyGo (splitNl output.data) none [] ([], []) with
  | (inf, exp) => (inf.map String.mk, exp.map String.mk)

/-! Declarative block decomposition used to state what the scanner does. -/

/-- Collect the raw (id, error lines) block for every header line; lines are
accumulated only while the id is truthy, exactly as in the scanner. -/
def blocksGo : List (List Char) → Option (List Char × List (List Char)) →
    List (List Char × List (List Char))
  | [], none => []
  | [], some b => [b]
  | line :: rest, cur =>
    if isFailureHeader line then
      (match cur with | some b => [b] | none => []) ++ blocksGo rest (some (headerId line, []))
    else
      match cur with
      | some (t, errs) =>
        blocksGo rest (some (t, if !t.isEmpty then errs ++ [line] else errs))
      | none => blocksGo rest none

def failureBlocks (lines : List (List Char)) : List (List Char × List (List Char)) :=
  blocksGo lines none

/-- A block qualifies for classification when its id is truthy and it has at
least one error line. -/
def qualBlock (b : List Char × List (List Char)) : Bool :=
  !b.1.isEmpty && !b.2.isEmpty

def infraBlock (b : List Char × List (List Char)) : Bool :=
  isInfraText (joinNl b.2)

def fmtInfraBlock (b : List Char × List (List Char)) : List Char :=
  b.1 ++ ':' :: '\n' :: joinNl b.2

/-- The current-scanner state seen as an open block. -/
def stPack : Option (List Char) → List (List Char) → Option (List Char × List (List Char))
  | none, _ => none
  | some t, errs => some (t, errs)

theorem processBlock_eq (ct : Option (List Char)) (errLines : List (List Char))
    (acc : List (List Char) × List (List Char)) :
    processBlock ct errLines acc =
      (acc.1 ++ (((stPack ct errLines).toList.filter qualBlock).filter infraBlock).map fmtInfraBlock,
       acc.2 ++ (((stPack ct errLines).toList.filter qualBlock).filter
          (fun b => !infraBlock b)).map Prod.fst) := by
  cases ct with
  | none => simp [processBlock, stPack]
  | some t =>
    simp only [processBlock, stPack, Option.toList]
    by_cases hq : (!t.isEmpty && !errLines.isEmpty) = true
    · rw [if_pos hq]
      have hq2 : qualBlock (t, errLines) = true := hq
      by_cases hi : isInfraText (joinNl errLines) = true
      · rw [if_pos hi]
        simp [List.filter, hq2, infraBlock, hi, fmtInfraBlock]
      · rw [if_neg hi]
        simp only [Bool.not_eq_true] at hi
        simp [List.filter, hq2, infraBlock, hi, fmtInfraBlock]
    · rw [if_neg hq]
      have hq2 : qualBlock (t, errLines) = false := by
        simpa [qualBlock] using hq
      simp [List.filter, hq2]

theorem classifyGo_eq_blocks (lines : List (List Char)) :
    ∀ (ct : Option (List Char)) (errLines : List (List Char))
      (acc : List (List Char) × List (List Char)),
    classifyGo lines ct errLines acc =
      (acc.1 ++ (((blocksGo lines (stPack ct errLines)).filter qualBlock).filter
          infraBlock).map fmtInfraBlock,
       acc.2 ++ (((blocksGo lines (stPack ct errLines)).filter qualBlock).filter
          (fun b => !infraBlock b)).map Prod.fst) := by
  induction lines with
  | nil =>
    intro ct errLines acc
    cases ct with
    | none => simp [classifyGo, blocksGo, stPack, processBlock]
    | some t =>
      have h := processBlock_eq (some t) errLines acc
      simpa [classifyGo, blocksGo, stPack, Option.toList] using h
  | cons line rest ih =>
    intro ct errLines acc
    by_cases hh : isFailureHeader line = true
    · have hb : blocksGo (line :: rest) (stPack ct errLines) =
          (stPack ct errLines).toList ++ blocksGo rest (stPack (some (headerId line)) []) := by
        cases ct <;> simp [blocksGo, stPack, if_pos hh, Option.toList]
      have hstep : classifyGo (line :: rest) ct errLines acc =
          classifyGo rest (some (headerId line)) [] (processBlock ct errLines acc) := by
        simp [classifyGo, if_pos hh]
      rw [hstep, ih (some (headerId line)) [] (processBlock ct errLines acc),
        processBlock_eq, hb]
      simp [List.filter_append, List.map_append, List.append_assoc]
    · cases ct with
      | none =>
        simp only [classifyGo, if_neg hh, ctTruthy, blocksGo, stPack]
        exact ih none errLines acc
      | some t =>
        by_cases ht : t.isEmpty = true
        · have hct : ctTruthy (some t) = false := by simp [ctTruthy, ht]
          simp only [classifyGo, if_neg hh, hct, if_neg (by simp : ¬ (false = true)),
            blocksGo, stPack, ht, Bool.not_true, Bool.false_and]
          have := ih (some t) errLines acc
          simpa [stPack, ht] using this
        · have hct : ctTruthy (some t) = true := by simp [ctTruthy, ht]
          simp only [classifyGo, if_neg hh, hct, if_pos rfl, blocksGo, stPack]
          have := ih (some t) (errLines ++ [line]) acc
          simp only [stPack] at this
          simpa [ht] using this

/-- Complementary filters split the length. -/
theorem filter_length_split {α : Type} (p : α → Bool) (l : List α) :
    (l.filter p).length + (l.filter (fun x => !p x)).length = l.length := by
  induction l with
  | nil => rfl
  | cons x xs ih =>
    by_cases hx : p x = true
    · simp [List.filter, hx, ← ih, Nat.add_assoc, Nat.add_comm, Nat.add_left_comm]
    · simp only [Bool.not_eq_true] at hx
      simp [List.filter, hx, ← ih, Nat.add_assoc, Nat.add_comm, Nat.add_left_comm]

/-- C4 counterexample: a report consisting of a single FAILED line has a
failing id (the extractor recognizes it) but classify_test_failures places it
in neither bucket, so the partition is not total. -/
theorem C4_counterexample :
    classify_test_failures "FAILED a.py::test_x" = ([], []) ∧
    extract_failing_test_ids "FAILED a.py::test_x" = ["a.py::test_x"] := by
  constructor
  · decide
  · decide

/-- C4 (amended): the classifier partitions the qualifying failure blocks: a
failing-test header followed by at least one line before the next header goes
to exactly one bucket, infrastructure when a structural-error signature
matches its error text and behavioral otherwise, while a header with no
collected error lines (or an id stripping to empty) is placed in neither
bucket; consequently the two bucket sizes always add up to the number of
qualifying blocks, and when every qualifying block matches a signature the
behavioral bucket is empty. -/
theorem C4_classification_amended :
    (∀ output : String,
      classify_test_failures output =
        ((((failureBlocks (splitNl output.data)).filter qualBlock).filter
            infraBlock).map (fun b => String.mk (fmtInfraBlock b)),
         (((failureBlocks (splitNl output.data)).filter qualBlock).filter
            (fun b => !infraBlock b)).map (fun b => String.mk b.1))) ∧
    (∀ output : String,
      (classify_test_failures output).1.length + (classify_test_failures output).2.length =
        ((failureBlocks (splitNl output.data)).filter qualBlock).length) ∧
    (∀ output : String,
      (∀ b ∈ (failureBlocks (splitNl output.data)).filter qualBlock, infraBlock b = true) →
      (classify_test_failures output).2 = []) := by
  have key : ∀ output : String,
      classify_test_failures output =
        ((((failureBlocks (splitNl output.data)).filter qualBlock).filter
            infraBlock).map (fun b => String.mk (fmtInfraBlock b)),
         (((failureBlocks (splitNl output.data)).filter qualBlock).filter
            (fun b => !infraBlock b)).map (fun b => String.mk b.1)) := by
    intro output
    have h := classifyGo_eq_blocks (splitNl output.data) none [] ([], [])
    simp only [classify_test_failures, failureBlocks]
    rw [h]
    simp [stPack]
  refine ⟨key, ?_, ?_⟩
  · intro output
    rw [key output]
    simp only [List.length_map]
    exact filter_length_split infraBlock _
  · intro output hall
    rw [key output]
    simp only [List.map_eq_nil_iff]
    rw [List.filter_eq_nil_iff]
    intro b hb
    simp [hall b hb]

/-- C4 witness: the amended theorem applied to a concrete report in which
every qualifying block carries a structural-error signature. -/
theorem C4_classification_amended_witness :
    (classify_test_failures "FAILED a.py::test_x\nassert 1 == 2\nFAILED b.py::test_y\nNameError: nope"
      = (["b.py::test_y:\nNameError: nope"], ["a.py::test_x"])) ∧
    (classify_test_failures "FAILED b.py::test_y\nNameError: nope").2 = [] := by
  constructor
  · have h := C4_classification_amended.1
      "FAILED a.py::test_x\nassert 1 == 2\nFAILED b.py::test_y\nNameError: nope"
    rw [h]
    decide
  · exact C4_classification_amended.2.2 "FAILED b.py::test_y\nNameError: nope"
      (by decide)

/-! ### C2: the predicate evaluator
Embeds tdadlib/mutationsmith/predicates.py. JSON values (Python Any inside
the parsed assistant response) are modeled by an inductive type; dicts become
association lists and dict equality is modeled structurally. The predicate
dicts become structures with one Option field per supported key plus the list
of unsupported keys; evaluation reasons (f-strings in the source) become a
tagged inductive so each append site is represented by the constructor
carrying its payload. Set-derived payloads (missing and found lists) are
modeled as order-preserving filters. -/

inductive JsonVal where
  | null
  | bool (b : Bool)
  | num (n : Int)
  | str (s : String)
  | arr (items : List JsonVal)
  | obj (fields : List (String × JsonVal))

mutual
def jsonBeq : JsonVal → JsonVal → Bool
  | .null, .null => true
  | .bool x, .bool y => x == y
  | .num x, .num y => x == y
  | .str x, .str y => x == y
  | .arr xs, .arr ys => jsonBeqList xs ys
  | .obj xs, .obj ys => jsonBeqFields xs ys
  | _, _ => false
def jsonBeqList : List JsonVal → List JsonVal → Bool
  | [], [] => true
  | x :: xs, y :: ys => jsonBeq x y && jsonBeqList xs ys
  | _, _ => false
def jsonBeqFields : List (String × JsonVal) → List (String × JsonVal) → Bool
  | [], [] => true
  | (k1, v1) :: xs, (k2, v2) :: ys => k1 == k2 && jsonBeq v1 v2 && jsonBeqFields xs ys
  | _, _ => false
end

/-- Tool call record from tdadlib/harness/trace.py (arguments are a JSON
object; result and error are unused by the evaluator). -/
structure ToolCall where
  name : String
  args : List (String × JsonVal)

structure ToolTrace where
  calls : List ToolCall

def ToolTrace.names (t : ToolTrace) : List String :=
  t.calls.map ToolCall.name

/-- Embedding of _check_trace_called: required names are a subset of the
called names. -/
def check_trace_called (names : List String) (tool_names : List String) : Bool :=
  tool_names.all fun t => names.contains t

/-- Embedding of _check_trace_not_called: no forbidden name was called. -/
def check_trace_not_called (names : List String) (tool_names : List String) : Bool :=
  tool_names.all fun t => !names.contains t

/-- Embedding of _check_text_contains_any. -/
def check_text_contains_any (text : String) (substrings : List String) : Bool :=
  substrings.any fun sub => strContains text sub

/-- Embedding of _check_text_not_contains_any. -/
def check_text_not_contains_any (text : String) (substrings : List String) : Bool :=
  !(substrings.any fun sub => strContains text sub)

/-- First-match lookup in a JSON object (Python dict keys are unique). -/
def lookupField : List (String × JsonVal) → String → Option JsonVal
  | [], _ => none
  | (k, v) :: rest, key => if k = key then some v else lookupField rest key

/-- Dot-path traversal of _get_json_field; a missing segment yields null,
matching the Python None for both a missing key and a stored null. -/
def getFieldParts : JsonVal → List String → JsonVal
  | cur, [] => cur
  | .obj fields, p :: rest =>
    (match lookupField fields p with
     | some v => getFieldParts v rest
     | none => JsonVal.null)
  | _, _ :: _ => JsonVal.null

def get_json_field (data : List (String × JsonVal)) (path : String) : JsonVal :=
  getFieldParts (.obj data) (path.splitOn ".")

/-- Embedding of _check_json_field_equals. -/
def check_json_field_equals (data : List (String × JsonVal)) (field : String)
    (value : JsonVal) : Bool :=
  jsonBeq (get_json_field data field) value

/-- Embedding of _check_json_field_in. -/
def check_json_field_in (data : List (String × JsonVal)) (field : String)
    (allowed : List JsonVal) : Bool :=
  allowed.any fun v => jsonBeq (get_json_field data field) v

/-! The predicate specification (the expect_violation dict). -/

structure OrderViolationSpec where
  must_not_happen : Option (List String)

structure TraceSpec where
  called : Option (List String)
  not_called : Option (List String)
  order_violation : Option OrderViolationSpec
  unknown_keys : List String

structure TextSpec where
  contains_any : Option (List String)
  not_contains_any : Option (List String)
  unknown_keys : List String

structure FieldEqualsSpec where
  field : Option String
  value : Option JsonVal

structure FieldInSpec where
  field : Option String
  allowed : Option (List JsonVal)

structure JsonSpec where
  field_equals : Option FieldEqualsSpec
  field_in : Option FieldInSpec
  unknown_keys : List String

structure ExpectViolation where
  trace : TraceSpec
  text : TextSpec
  json : JsonSpec

/-- One constructor per reason appended by evaluate_violation. -/
inductive Reason where
  | warnUnsupportedTrace (keys : List String)
  | traceCalledOk (required : List String)
  | traceCalledFailed (missing : List String)
  | traceNotCalledOk (forbidden : List String)
  | traceNotCalledFailed (found : List String)
  | orderViolationOk (pair : List String)
  | orderViolationFailed (pair : List String)
  | warnUnsupportedText (keys : List String)
  | textContainsOk (found : List String)
  | textContainsFailed (substrings : List String)
  | textNotContainsOk
  | textNotContainsFailed (found : List String)
  | warnUnsupportedJson (keys : List String)
  | jsonFieldEqualsOk (field : String) (value : JsonVal)
  | jsonFieldEqualsFailed (field : String) (actual expected : JsonVal)
  | jsonFieldInOk (field : String) (actual : JsonVal) (allowed : List JsonVal)
  | jsonFieldInFailed (field : String) (actual : JsonVal) (allowed : List JsonVal)
  | noEvaluablePredicate

/-- The local evaluation state of evaluate_violation. -/
structure EvalState where
  reasons : List Reason
  all_passed : Bool
  predicates_checked : Nat

def stepWarnTrace (keys : List String) (s : EvalState) : EvalState :=
  if keys.isEmpty then s
  else { s with reasons := s.reasons ++ [Reason.warnUnsupportedTrace keys] }

def stepCalled (names : List String) (clause : Option (List String)) (s : EvalState) : EvalState :=
  match clause with
  | none => s
  | some required =>
    if check_trace_called names required then
      { s with reasons := s.reasons ++ [Reason.traceCalledOk required],
               predicates_checked := s.predicates_checked + 1 }
    else
      { s with reasons := s.reasons ++
          [Reason.traceCalledFailed (required.filter fun t => !names.contains t)],
               all_passed := false,
               predicates_checked := s.predicates_checked + 1 }

def stepNotCalled (names : List String) (clause : Option (List String)) (s : EvalState) : EvalState :=
  match clause with
  | none => s
  | some forbidden =>
    if check_trace_not_called names forbidden then
      { s with reasons := s.reasons ++ [Reason.traceNotCalledOk forbidden],
               predicates_checked := s.predicates_checked + 1 }
    else
      { s with reasons := s.reasons ++
          [Reason.traceNotCalledFailed (forbidden.filter fun t => names.contains t)],
               all_passed := false,
               predicates_checked := s.predicates_checked + 1 }

/-- The exception evaluate_violation can raise: both reason f-strings of the
order_violation block index the first and second entries of the
must_not_happen pair, which raises IndexError when the pair has fewer than
two entries. -/
inductive EvalError where
  | indexError
deriving DecidableEq

def stepOrderViolation (names : List String) (clause : Option OrderViolationSpec)
    (s : EvalState) : Except EvalError EvalState :=
  match clause with
  | none => .ok s
  | some ospec =>
    let s := { s with predicates_checked := s.predicates_checked + 1 }
    match ospec.must_not_happen with
    | none => .ok s
    | some pair =>
      if check_trace_order_violation names pair then
        if pair.length < 2 then .error EvalError.indexError
        else
          .ok { s with
            reasons := s.reasons ++ [Reason.orderViolationOk pair] }
      else
        if pair.length < 2 then .error EvalError.indexError
        else
          .ok { s with
            reasons := s.reasons ++ [Reason.orderViolationFailed pair],
            all_passed := false }

def stepWarnText (keys : List String) (s : EvalState) : EvalState :=
  if keys.isEmpty then s
  else { s with reasons := s.reasons ++ [Reason.warnUnsupportedText keys] }

def stepContainsAny (text : String) (clause : Option (List String)) (s : EvalState) : EvalState :=
  match clause with
  | none => s
  | some substrings =>
    if check_text_contains_any text substrings then
      { s with reasons := s.reasons ++
          [Reason.textContainsOk (substrings.filter fun sub => strContains text sub)],
               predicates_checked := s.predicates_checked + 1 }
    else
      { s with reasons := s.reasons ++ [Reason.textContainsFailed substrings],
               all_passed := false,
               predicates_checked := s.predicates_checked + 1 }

def stepNotContainsAny (text : String) (clause : Option (List String)) (s : EvalState) : EvalState :=
  match clause with
  | none => s
  | some substrings =>
    if check_text_not_contains_any text substrings then
      { s with reasons := s.reasons ++ [Reason.textNotContainsOk],
               predicates_checked := s.predicates_checked + 1 }
    else
      { s with reasons := s.reasons ++
          [Reason.textNotContainsFailed (substrings.filter fun sub => strContains text sub)],
               all_passed := false,
               predicates_checked := s.predicates_checked + 1 }

def stepWarnJson (keys : List String) (s : EvalState) : EvalState :=
  if keys.isEmpty then s
  else { s with reasons := s.reasons ++ [Reason.warnUnsupportedJson keys] }

def stepFieldEquals (data : List (String × JsonVal)) (clause : Option FieldEqualsSpec)
    (s : EvalState) : EvalState :=
  match clause with
  | none => s
  | some spec =>
    let field := spec.field.getD ""
    let value := spec.value.getD JsonVal.null
    if check_json_field_equals data field value then
      { s with reasons := s.reasons ++ [Reason.jsonFieldEqualsOk field value],
               predicates_checked := s.predicates_checked + 1 }
    else
      { s with reasons := s.reasons ++
          [Reason.jsonFieldEqualsFailed field (get_json_field data field) value],
               all_passed := false,
               predicates_checked := s.predicates_checked + 1 }

def stepFieldIn (data : List (String × JsonVal)) (clause : Option FieldInSpec)
    (s : EvalState) : EvalState :=
  match clause with
  | none => s
  | some spec =>
    let field := spec.field.getD ""
    let allowed := spec.allowed.getD []
    if check_json_field_in data field allowed then
      { s with reasons := s.reasons ++
          [Reason.jsonFieldInOk field (get_json_field data field) allowed],
               predicates_checked := s.predicates_checked + 1 }
    else
      { s with reasons := s.reasons ++
          [Reason.jsonFieldInFailed field (get_json_field data field) allowed],
               all_passed := false,
               predicates_checked := s.predicates_checked + 1 }

/-- Embedding of evaluate_violation: the sequential clause evaluation,
followed by the closed-world check that fails the activation when no
supported predicate was evaluated. Returns (violation_occurred, reasons), or
the raised IndexError when the order_violation block indexes a short
must_not_happen pair; the propagated exception skips the remaining clause
blocks. -/
def evaluate_violation (ev : ExpectViolation) (trace : ToolTrace)
    (assistant_text : String) (assistant_json : Option (List (String × JsonVal))) :
    Except EvalError (Bool × List Reason) :=
  let names := trace.names
  let json_data := assistant_json.getD []
  let s : EvalState := ⟨[], true, 0⟩
  let s := stepWarnTrace ev.trace.unknown_keys s
  let s := stepCalled names ev.trace.called s
  let s := stepNotCalled names ev.trace.not_called s
  match stepOrderViolation names ev.trace.order_violation s with
  | .error e => .error e
  | .ok s =>
    let s := stepWarnText ev.text.unknown_keys s
    let s := stepContainsAny assistant_text ev.text.contains_any s
    let s := stepNotContainsAny assistant_text ev.text.not_contains_any s
    let s := stepWarnJson ev.json.unknown_keys s
    let s := stepFieldEquals json_data ev.json.field_equals s
    let s := stepFieldIn json_data ev.json.field_in s
    let s := if s.predicates_checked = 0 then
        { s with all_passed := false, reasons := s.reasons ++ [Reason.noEvaluablePredicate] }
      else s
    .ok (s.all_passed, s.reasons)

/-! Specification-side view: which supported clauses are present, and
whether each present clause holds, read off the same checker functions. -/

def countOpt {α : Type} : Option α → Nat
  | none => 0
  | some _ => 1

/-- The number of supported clauses present in the predicate (what
predicates_checked ends up counting). -/
def numSupportedClauses (ev : ExpectViolation) : Nat :=
  countOpt ev.trace.called + countOpt ev.trace.not_called +
    countOpt ev.trace.order_violation + countOpt ev.text.contains_any +
    countOpt ev.text.not_contains_any + countOpt ev.json.field_equals +
    countOpt ev.json.field_in

def calledHolds (names : List String) : Option (List String) → Bool
  | none => true
  | some required => check_trace_called names required

def notCalledHolds (names : List String) : Option (List String) → Bool
  | none => true
  | some forbidden => check_trace_not_called names forbidden

/-- An order_violation clause without a must_not_happen entry is counted but
never fails, so it holds vacuously. -/
def orderHolds (names : List String) : Option OrderViolationSpec → Bool
  | none => true
  | some ospec =>
    match ospec.must_not_happen with
    | none => true
    | some pair => check_trace_order_violation names pair

def containsAnyHolds (text : String) : Option (List String) → Bool
  | none => true
  | some substrings => check_text_contains_any text substrings

def notContainsAnyHolds (text : String) : Option (List String) → Bool
  | none => true
  | some substrings => check_text_not_contains_any text substrings

def fieldEqualsHolds (data : List (String × JsonVal)) : Option FieldEqualsSpec → Bool
  | none => true
  | some spec => check_json_field_equals data (spec.field.getD "") (spec.value.getD JsonVal.null)

def fieldInHolds (data : List (String × JsonVal)) : Option FieldInSpec → Bool
  | none => true
  | some spec => check_json_field_in data (spec.field.getD "") (spec.allowed.getD [])

/-- All supported clauses present in the predicate hold on the given
(trace, text, json) triple. -/
def clausesHold (ev : ExpectViolation) (trace : ToolTrace) (assistant_text : String)
    (assistant_json : Option (List (String × JsonVal))) : Bool :=
  calledHolds trace.names ev.trace.called &&
    notCalledHolds trace.names ev.trace.not_called &&
    orderHolds trace.names ev.trace.order_violation &&
    containsAnyHolds assistant_text ev.text.contains_any &&
    notContainsAnyHolds assistant_text ev.text.not_contains_any &&
    fieldEqualsHolds (assistant_json.getD []) ev.json.field_equals &&
    fieldInHolds (assistant_json.getD []) ev.json.field_in

/-- Replace only the unsupported keys of a predicate. -/
def setUnknownKeys (ev : ExpectViolation) (kt kx kj : List String) : ExpectViolation :=
  { trace := { ev.trace with unknown_keys := kt },
    text := { ev.text with unknown_keys := kx },
    json := { ev.json with unknown_keys := kj } }

/-- The order_violation block returns (rather than raising IndexError)
exactly when any must_not_happen pair it carries has at least two entries. -/
def orderClauseOk : Option OrderViolationSpec → Bool
  | none => true
  | some ospec =>
    match ospec.must_not_happen with
    | none => true
    | some pair => decide (2 ≤ pair.length)

theorem check_trace_order_violation_length (names : List String) (pair : List String)
    (h : check_trace_order_violation names pair = true) : pair.length = 2 := by
  match pair with
  | [a, b] => rfl
  | [] => exact absurd h (by simp [check_trace_order_violation])
  | [a] => exact absurd h (by simp [check_trace_order_violation])
  | a :: b :: c :: rest => exact absurd h (by simp [check_trace_order_violation])

theorem orderClauseOk_of_orderHolds (names : List String) (clause : Option OrderViolationSpec)
    (h : orderHolds names clause = true) : orderClauseOk clause = true := by
  cases clause with
  | none => rfl
  | some ospec =>
    cases hm : ospec.must_not_happen with
    | none => simp [orderClauseOk, hm]
    | some pair =>
      have hc : check_trace_order_violation names pair = true := by
        simpa [orderHolds, hm] using h
      have hlen := check_trace_order_violation_length names pair hc
      simp [orderClauseOk, hm, hlen]

theorem orderClauseOk_false_iff (clause : Option OrderViolationSpec) :
    orderClauseOk clause = false ↔
      ∃ ospec pair, clause = some ospec ∧ ospec.must_not_happen = some pair ∧
        pair.length < 2 := by
  cases clause with
  | none =>
    constructor
    · intro h
      exact Bool.noConfusion h
    · rintro ⟨ospec, pair, heq, -, -⟩
      cases heq
  | some ospec =>
    cases hm : ospec.must_not_happen with
    | none =>
      constructor
      · intro h
        have : orderClauseOk (some ospec) = true := by simp [orderClauseOk, hm]
        rw [this] at h
        exact Bool.noConfusion h
      · rintro ⟨ospec2, pair, heq, hmm, -⟩
        cases heq
        rw [hm] at hmm
        cases hmm
    | some pair =>
      constructor
      · intro h
        simp only [orderClauseOk, hm, decide_eq_false_iff_not, not_le] at h
        exact ⟨ospec, _, rfl, hm, h⟩
      · rintro ⟨ospec2, pair2, heq, hmm, hlen⟩
        cases heq
        rw [hm] at hmm
        cases hmm
        simp only [orderClauseOk, hm, decide_eq_false_iff_not, not_le]
        omega

/-! Step lemmas: each clause block multiplies its check into all_passed,
counts the clause when present, and only appends to the reasons list. -/

theorem stepWarnTrace_spec (keys : List String) (s : EvalState) :
    (stepWarnTrace keys s).all_passed = s.all_passed ∧
    (stepWarnTrace keys s).predicates_checked = s.predicates_checked ∧
    ∃ l, (stepWarnTrace keys s).reasons = s.reasons ++ l := by
  unfold stepWarnTrace
  by_cases h : keys.isEmpty <;> simp [h]

theorem stepWarnTrace_mem (keys : List String) (s : EvalState) (h : keys ≠ []) :
    Reason.warnUnsupportedTrace keys ∈ (stepWarnTrace keys s).reasons := by
  unfold stepWarnTrace
  rw [if_neg (by simpa [List.isEmpty_iff] using h)]
  simp

theorem stepCalled_spec (names : List String) (clause : Option (List String)) (s : EvalState) :
    (stepCalled names clause s).all_passed = (s.all_passed && calledHolds names clause) ∧
    (stepCalled names clause s).predicates_checked = s.predicates_checked + countOpt clause ∧
    ∃ l, (stepCalled names clause s).reasons = s.reasons ++ l := by
  cases clause with
  | none => simp [stepCalled, calledHolds, countOpt]
  | some required =>
    by_cases h : check_trace_called names required <;>
      simp [stepCalled, calledHolds, countOpt, h]

theorem stepNotCalled_spec (names : List String) (clause : Option (List String)) (s : EvalState) :
    (stepNotCalled names clause s).all_passed = (s.all_passed && notCalledHolds names clause) ∧
    (stepNotCalled names clause s).predicates_checked = s.predicates_checked + countOpt clause ∧
    ∃ l, (stepNotCalled names clause s).reasons = s.reasons ++ l := by
  cases clause with
  | none => simp [stepNotCalled, notCalledHolds, countOpt]
  | some forbidden =>
    by_cases h : check_trace_not_called names forbidden <;>
      simp [stepNotCalled, notCalledHolds, countOpt, h]

theorem stepOrderViolation_ok (names : List String) (clause : Option OrderViolationSpec)
    (s : EvalState) (hok : orderClauseOk clause = true) :
    ∃ s2, stepOrderViolation names clause s = .ok s2 ∧
      s2.all_passed = (s.all_passed && orderHolds names clause) ∧
      s2.predicates_checked = s.predicates_checked + countOpt clause ∧
      ∃ l, s2.reasons = s.reasons ++ l := by
  cases clause with
  | none =>
    exact ⟨s, rfl, by simp [orderHolds], by simp [countOpt], [], by simp⟩
  | some ospec =>
    cases hm : ospec.must_not_happen with
    | none =>
      refine ⟨{ s with predicates_checked := s.predicates_checked + 1 }, ?_, ?_, ?_, [],
        by simp⟩
      · simp [stepOrderViolation, hm]
      · simp [orderHolds, hm]
      · simp [countOpt]
    | some pair =>
      have hlen : ¬ pair.length < 2 := by
        have h2 := hok
        simp only [orderClauseOk, hm, decide_eq_true_eq] at h2
        omega
      by_cases hc : check_trace_order_violation names pair = true
      · refine ⟨⟨s.reasons ++ [Reason.orderViolationOk pair], s.all_passed,
          s.predicates_checked + 1⟩, ?_, ?_, ?_, [Reason.orderViolationOk pair], rfl⟩
        · simp [stepOrderViolation, hm, hc, hlen]
        · simp [orderHolds, hm, hc]
        · simp [countOpt]
      · have hcf : check_trace_order_violation names pair = false := by
          cases hcc : check_trace_order_violation names pair
          · rfl
          · exact absurd hcc hc
        refine ⟨⟨s.reasons ++ [Reason.orderViolationFailed pair], false,
          s.predicates_checked + 1⟩, ?_, ?_, ?_, [Reason.orderViolationFailed pair], rfl⟩
        · simp [stepOrderViolation, hm, hcf, hlen]
        · simp [orderHolds, hm, hcf]
        · simp [countOpt]

theorem stepOrderViolation_error (names : List String) (clause : Option OrderViolationSpec)
    (s : EvalState) (hbad : orderClauseOk clause = false) :
    stepOrderViolation names clause s = .error EvalError.indexError := by
  obtain ⟨ospec, pair, rfl, hm, hlen⟩ := (orderClauseOk_false_iff clause).mp hbad
  by_cases hc : check_trace_order_violation names pair = true
  · have := check_trace_order_violation_length names pair hc
    omega
  · have hcf : check_trace_order_violation names pair = false := by
      cases hcc : check_trace_order_violation names pair
      · rfl
      · exact absurd hcc hc
    simp [stepOrderViolation, hm, hcf, hlen]

theorem stepWarnText_spec (keys : List String) (s : EvalState) :
    (stepWarnText keys s).all_passed = s.all_passed ∧
    (stepWarnText keys s).predicates_checked = s.predicates_checked ∧
    ∃ l, (stepWarnText keys s).reasons = s.reasons ++ l := by
  unfold stepWarnText
  by_cases h : keys.isEmpty <;> simp [h]

theorem stepWarnText_mem (keys : List String) (s : EvalState) (h : keys ≠ []) :
    Reason.warnUnsupportedText keys ∈ (stepWarnText keys s).reasons := by
  unfold stepWarnText
  rw [if_neg (by simpa [List.isEmpty_iff] using h)]
  simp

theorem stepContainsAny_spec (text : String) (clause : Option (List String)) (s : EvalState) :
    (stepContainsAny text clause s).all_passed = (s.all_passed && containsAnyHolds text clause) ∧
    (stepContainsAny text clause s).predicates_checked
        = s.predicates_checked + countOpt clause ∧
    ∃ l, (stepContainsAny text clause s).reasons = s.reasons ++ l := by
  cases clause with
  | none => simp [stepContainsAny, containsAnyHolds, countOpt]
  | some substrings =>
    by_cases h : check_text_contains_any text substrings <;>
      simp [stepContainsAny, containsAnyHolds, countOpt, h]

theorem stepNotContainsAny_spec (text : String) (clause : Option (List String)) (s : EvalState) :
    (stepNotContainsAny text clause s).all_passed
        = (s.all_passed && notContainsAnyHolds text clause) ∧
    (stepNotContainsAny text clause s).predicates_checked
        = s.predicates_checked + countOpt clause ∧
    ∃ l, (stepNotContainsAny text clause s).reasons = s.reasons ++ l := by
  cases clause with
  | none => simp [stepNotContainsAny, notContainsAnyHolds, countOpt]
  | some substrings =>
    by_cases h : check_text_not_contains_any text substrings <;>
      simp [stepNotContainsAny, notContainsAnyHolds, countOpt, h]

theorem stepWarnJson_spec (keys : List String) (s : EvalState) :
    (stepWarnJson keys s).all_passed = s.all_passed ∧
    (stepWarnJson keys s).predicates_checked = s.predicates_checked ∧
    ∃ l, (stepWarnJson keys s).reasons = s.reasons ++ l := by
  unfold stepWarnJson
  by_cases h : keys.isEmpty <;> simp [h]

theorem stepWarnJson_mem (keys : List String) (s : EvalState) (h : keys ≠ []) :
    Reason.warnUnsupportedJson keys ∈ (stepWarnJson keys s).reasons := by
  unfold stepWarnJson
  rw [if_neg (by simpa [List.isEmpty_iff] using h)]
  simp

theorem stepFieldEquals_spec (data : List (String × JsonVal)) (clause : Option FieldEqualsSpec)
    (s : EvalState) :
    (stepFieldEquals data clause s).all_passed = (s.all_passed && fieldEqualsHolds data clause) ∧
    (stepFieldEquals data clause s).predicates_checked
        = s.predicates_checked + countOpt clause ∧
    ∃ l, (stepFieldEquals data clause s).reasons = s.reasons ++ l := by
  cases clause with
  | none => simp [stepFieldEquals, fieldEqualsHolds, countOpt]
  | some spec =>
    by_cases h : check_json_field_equals data (spec.field.getD "") (spec.value.getD JsonVal.null) <;>
      simp [stepFieldEquals, fieldEqualsHolds, countOpt, h]

theorem stepFieldIn_spec (data : List (String × JsonVal)) (clause : Option FieldInSpec)
    (s : EvalState) :
    (stepFieldIn data clause s).all_passed = (s.all_passed && fieldInHolds data clause) ∧
    (stepFieldIn data clause s).predicates_checked = s.predicates_checked + countOpt clause ∧
    ∃ l, (stepFieldIn data clause s).reasons = s.reasons ++ l := by
  cases clause with
  | none => simp [stepFieldIn, fieldInHolds, countOpt]
  | some spec =>
    by_cases h : check_json_field_in data (spec.field.getD "") (spec.allowed.getD []) <;>
      simp [stepFieldIn, fieldInHolds, countOpt, h]

/-- The three clause blocks before the order_violation block. -/
def prePipeline (ev : ExpectViolation) (names : List String) (s0 : EvalState) : EvalState :=
  stepNotCalled names ev.trace.not_called
    (stepCalled names ev.trace.called
      (stepWarnTrace ev.trace.unknown_keys s0))

/-- The six clause blocks after the order_violation block; they run only when
that block did not raise. -/
def postPipeline (ev : ExpectViolation) (assistant_text : String)
    (json_data : List (String × JsonVal)) (s : EvalState) : EvalState :=
  stepFieldIn json_data ev.json.field_in
    (stepFieldEquals json_data ev.json.field_equals
      (stepWarnJson ev.json.unknown_keys
        (stepNotContainsAny assistant_text ev.text.not_contains_any
          (stepContainsAny assistant_text ev.text.contains_any
            (stepWarnText ev.text.unknown_keys s)))))

/-- The closed-world check and result projection ending evaluate_violation. -/
def finalizeEval (s : EvalState) : Bool × List Reason :=
  let s := if s.predicates_checked = 0 then
      { s with all_passed := false, reasons := s.reasons ++ [Reason.noEvaluablePredicate] }
    else s
  (s.all_passed, s.reasons)

theorem evaluate_violation_eq_pipeline (ev : ExpectViolation) (trace : ToolTrace)
    (assistant_text : String) (assistant_json : Option (List (String × JsonVal))) :
    evaluate_violation ev trace assistant_text assistant_json =
      (match stepOrderViolation trace.names ev.trace.order_violation
          (prePipeline ev trace.names ⟨[], true, 0⟩) with
       | .error e => .error e
       | .ok s => .ok (finalizeEval
          (postPipeline ev assistant_text (assistant_json.getD []) s))) := rfl

theorem prePipeline_spec (ev : ExpectViolation) (names : List String) (s0 : EvalState) :
    (prePipeline ev names s0).all_passed
        = (s0.all_passed && (calledHolds names ev.trace.called &&
            notCalledHolds names ev.trace.not_called)) ∧
    (prePipeline ev names s0).predicates_checked
        = s0.predicates_checked + countOpt ev.trace.called + countOpt ev.trace.not_called ∧
    ∃ l, (prePipeline ev names s0).reasons = s0.reasons ++ l := by
  obtain ⟨h1a, h1c, l1, h1r⟩ := stepWarnTrace_spec ev.trace.unknown_keys s0
  obtain ⟨h2a, h2c, l2, h2r⟩ := stepCalled_spec names ev.trace.called _
  obtain ⟨h3a, h3c, l3, h3r⟩ := stepNotCalled_spec names ev.trace.not_called _
  refine ⟨?_, ?_, ?_⟩
  · rw [show (prePipeline ev names s0).all_passed
        = (stepNotCalled names ev.trace.not_called _).all_passed from rfl]
    rw [h3a, h2a, h1a]
    simp [Bool.and_assoc]
  · rw [show (prePipeline ev names s0).predicates_checked
        = (stepNotCalled names ev.trace.not_called _).predicates_checked from rfl]
    rw [h3c, h2c, h1c]
  · refine ⟨l1 ++ l2 ++ l3, ?_⟩
    rw [show (prePipeline ev names s0).reasons
        = (stepNotCalled names ev.trace.not_called _).reasons from rfl]
    rw [h3r, h2r, h1r]
    simp [List.append_assoc]

theorem postPipeline_spec (ev : ExpectViolation) (assistant_text : String)
    (json_data : List (String × JsonVal)) (s : EvalState) :
    (postPipeline ev assistant_text json_data s).all_passed
        = (s.all_passed && (containsAnyHolds assistant_text ev.text.contains_any &&
            notContainsAnyHolds assistant_text ev.text.not_contains_any &&
            fieldEqualsHolds json_data ev.json.field_equals &&
            fieldInHolds json_data ev.json.field_in)) ∧
    (postPipeline ev assistant_text json_data s).predicates_checked
        = s.predicates_checked + countOpt ev.text.contains_any +
            countOpt ev.text.not_contains_any + countOpt ev.json.field_equals +
            countOpt ev.json.field_in ∧
    ∃ l, (postPipeline ev assistant_text json_data s).reasons = s.reasons ++ l := by
  obtain ⟨h5a, h5c, l5, h5r⟩ := stepWarnText_spec ev.text.unknown_keys s
  obtain ⟨h6a, h6c, l6, h6r⟩ := stepContainsAny_spec assistant_text ev.text.contains_any _
  obtain ⟨h7a, h7c, l7, h7r⟩ := stepNotContainsAny_spec assistant_text ev.text.not_contains_any _
  obtain ⟨h8a, h8c, l8, h8r⟩ := stepWarnJson_spec ev.json.unknown_keys _
  obtain ⟨h9a, h9c, l9, h9r⟩ := stepFieldEquals_spec json_data ev.json.field_equals _
  obtain ⟨h10a, h10c, l10, h10r⟩ := stepFieldIn_spec json_data ev.json.field_in _
  refine ⟨?_, ?_, ?_⟩
  · rw [show (postPipeline ev assistant_text json_data s).all_passed
        = (stepFieldIn json_data ev.json.field_in _).all_passed from rfl]
    rw [h10a, h9a, h8a, h7a, h6a, h5a]
    simp [Bool.and_assoc]
  · rw [show (postPipeline ev assistant_text json_data s).predicates_checked
        = (stepFieldIn json_data ev.json.field_in _).predicates_checked from rfl]
    rw [h10c, h9c, h8c, h7c, h6c, h5c]
  · refine ⟨l5 ++ l6 ++ l7 ++ l8 ++ l9 ++ l10, ?_⟩
    rw [show (postPipeline ev assistant_text json_data s).reasons
        = (stepFieldIn json_data ev.json.field_in _).reasons from rfl]
    rw [h10r, h9r, h8r, h7r, h6r, h5r]
    simp [List.append_assoc]

/-- A returning evaluation carries exactly the conjunction of clause checks
guarded by the closed-world count, the warning for unsupported trace keys,
and the no-evaluable-predicate reason when nothing was checked. -/
theorem evaluate_violation_ok_spec (ev : ExpectViolation) (trace : ToolTrace)
    (text : String) (json : Option (List (String × JsonVal)))
    (hok : orderClauseOk ev.trace.order_violation = true) :
    ∃ rs, evaluate_violation ev trace text json =
        .ok ((decide (numSupportedClauses ev ≠ 0) && clausesHold ev trace text json), rs) ∧
      (ev.trace.unknown_keys ≠ [] →
        Reason.warnUnsupportedTrace ev.trace.unknown_keys ∈ rs) ∧
      (numSupportedClauses ev = 0 → Reason.noEvaluablePredicate ∈ rs) := by
  rw [evaluate_violation_eq_pipeline]
  obtain ⟨hpa, hpc, lp, hpr⟩ := prePipeline_spec ev trace.names ⟨[], true, 0⟩
  obtain ⟨s2, hord, hoa, hoc, lo, hor⟩ := stepOrderViolation_ok trace.names
    ev.trace.order_violation (prePipeline ev trace.names ⟨[], true, 0⟩) hok
  rw [hord]
  obtain ⟨hqa, hqc, lq, hqr⟩ := postPipeline_spec ev text (json.getD []) s2
  simp only [show (⟨[], true, 0⟩ : EvalState).predicates_checked = 0 from rfl,
    show (⟨[], true, 0⟩ : EvalState).all_passed = true from rfl, Nat.zero_add,
    Bool.true_and] at hpa hpc
  have hcount : (postPipeline ev text (json.getD []) s2).predicates_checked
      = numSupportedClauses ev := by
    rw [hqc, hoc, hpc]
    simp only [numSupportedClauses]
  have hall : (postPipeline ev text (json.getD []) s2).all_passed
      = clausesHold ev trace text json := by
    rw [hqa, hoa, hpa]
    simp [clausesHold, Bool.and_assoc]
  have hwmem : ev.trace.unknown_keys ≠ [] →
      Reason.warnUnsupportedTrace ev.trace.unknown_keys
        ∈ (postPipeline ev text (json.getD []) s2).reasons := by
    intro hk
    have hm := stepWarnTrace_mem ev.trace.unknown_keys ⟨[], true, 0⟩ hk
    obtain ⟨-, -, l2, h2r⟩ := stepCalled_spec trace.names ev.trace.called
      (stepWarnTrace ev.trace.unknown_keys ⟨[], true, 0⟩)
    obtain ⟨-, -, l3, h3r⟩ := stepNotCalled_spec trace.names ev.trace.not_called _
    have hpre : Reason.warnUnsupportedTrace ev.trace.unknown_keys
        ∈ (prePipeline ev trace.names ⟨[], true, 0⟩).reasons := by
      show Reason.warnUnsupportedTrace ev.trace.unknown_keys
          ∈ (stepNotCalled trace.names ev.trace.not_called _).reasons
      rw [h3r, h2r]
      simp only [List.append_assoc, List.mem_append]
      exact Or.inl hm
    rw [hqr, hor]
    simp only [List.append_assoc, List.mem_append]
    exact Or.inl hpre
  by_cases h0 : (postPipeline ev text (json.getD []) s2).predicates_checked = 0
  · have hn : numSupportedClauses ev = 0 := by rw [← hcount, h0]
    have hval : (decide (numSupportedClauses ev ≠ 0) &&
        clausesHold ev trace text json) = false := by
      simp [hn]
    refine ⟨(postPipeline ev text (json.getD []) s2).reasons ++
        [Reason.noEvaluablePredicate], ?_, ?_, ?_⟩
    · rw [hval]
      simp [finalizeEval, h0]
    · intro hk
      exact List.mem_append.mpr (Or.inl (hwmem hk))
    · intro _
      simp
  · have hn : numSupportedClauses ev ≠ 0 := by rw [← hcount]; exact h0
    have hval : (decide (numSupportedClauses ev ≠ 0) &&
        clausesHold ev trace text json) = clausesHold ev trace text json := by
      simp [hn]
    refine ⟨(postPipeline ev text (json.getD []) s2).reasons, ?_, hwmem, ?_⟩
    · rw [hval, ← hall]
      simp [finalizeEval, h0]
    · intro hz
      exact absurd hz hn

/-- C2: the evaluator returns activated true exactly when at least one
supported clause is present and every supported clause holds; the unsupported
keys of a predicate never change the activation outcome (error or value) and
only contribute warning reasons; a predicate with zero supported keys always
returns activated false with the explicit no-evaluable-predicate reason,
whatever the trace, text and json inputs are; and evaluation raises the
IndexError of the order_violation reason f-strings exactly when a
must_not_happen pair with fewer than two entries is present. -/
theorem C2_evaluate_violation :
    (∀ (ev : ExpectViolation) (trace : ToolTrace) (text : String)
        (json : Option (List (String × JsonVal))),
      (∃ rs, evaluate_violation ev trace text json = .ok (true, rs)) ↔
        (numSupportedClauses ev ≠ 0 ∧ clausesHold ev trace text json = true)) ∧
    (∀ (ev : ExpectViolation) (trace : ToolTrace) (text : String)
        (json : Option (List (String × JsonVal))) (kt kx kj : List String),
      (evaluate_violation (setUnknownKeys ev kt kx kj) trace text json).map Prod.fst
        = (evaluate_violation ev trace text json).map Prod.fst) ∧
    (∀ (ev : ExpectViolation) (trace : ToolTrace) (text : String)
        (json : Option (List (String × JsonVal))) (b : Bool) (rs : List Reason),
      evaluate_violation ev trace text json = .ok (b, rs) →
      ev.trace.unknown_keys ≠ [] →
      Reason.warnUnsupportedTrace ev.trace.unknown_keys ∈ rs) ∧
    (∀ (ev : ExpectViolation) (trace : ToolTrace) (text : String)
        (json : Option (List (String × JsonVal))),
      numSupportedClauses ev = 0 →
        ∃ rs, evaluate_violation ev trace text json = .ok (false, rs) ∧
          Reason.noEvaluablePredicate ∈ rs) ∧
    (∀ (ev : ExpectViolation) (trace : ToolTrace) (text : String)
        (json : Option (List (String × JsonVal))),
      evaluate_violation ev trace text json = .error EvalError.indexError ↔
        ∃ ospec pair, ev.trace.order_violation = some ospec ∧
          ospec.must_not_happen = some pair ∧ pair.length < 2) := by
  have herr : ∀ (ev : ExpectViolation) (trace : ToolTrace) (text : String)
      (json : Option (List (String × JsonVal))),
      orderClauseOk ev.trace.order_violation = false →
      evaluate_violation ev trace text json = .error EvalError.indexError := by
    intro ev trace text json hbad
    rw [evaluate_violation_eq_pipeline,
      stepOrderViolation_error trace.names ev.trace.order_violation _ hbad]
  refine ⟨?_, ?_, ?_, ?_, ?_⟩
  · intro ev trace text json
    constructor
    · rintro ⟨rs, hev⟩
      cases hok : orderClauseOk ev.trace.order_violation with
      | false =>
        rw [herr ev trace text json hok] at hev
        cases hev
      | true =>
        obtain ⟨rs0, heq, -, -⟩ := evaluate_violation_ok_spec ev trace text json hok
        rw [heq] at hev
        simp only [Except.ok.injEq, Prod.mk.injEq] at hev
        have hval := hev.1
        simp only [Bool.and_eq_true, decide_eq_true_eq] at hval
        exact ⟨hval.1, hval.2⟩
    · rintro ⟨hnum, hhold⟩
      have hcomp := hhold
      simp only [clausesHold, Bool.and_eq_true] at hcomp
      obtain ⟨⟨⟨⟨⟨⟨-, -⟩, h3⟩, -⟩, -⟩, -⟩, -⟩ := hcomp
      have hok := orderClauseOk_of_orderHolds trace.names ev.trace.order_violation h3
      obtain ⟨rs, heq, -, -⟩ := evaluate_violation_ok_spec ev trace text json hok
      have hval : (decide (numSupportedClauses ev ≠ 0) &&
          clausesHold ev trace text json) = true := by
        rw [hhold]
        simp [hnum]
      rw [hval] at heq
      exact ⟨rs, heq⟩
  · intro ev trace text json kt kx kj
    cases hok : orderClauseOk ev.trace.order_violation with
    | false =>
      have hok2 : orderClauseOk (setUnknownKeys ev kt kx kj).trace.order_violation
          = false := hok
      rw [herr ev trace text json hok,
        herr (setUnknownKeys ev kt kx kj) trace text json hok2]
    | true =>
      have hok2 : orderClauseOk (setUnknownKeys ev kt kx kj).trace.order_violation
          = true := hok
      obtain ⟨rs1, heq1, -, -⟩ := evaluate_violation_ok_spec
        (setUnknownKeys ev kt kx kj) trace text json hok2
      obtain ⟨rs2, heq2, -, -⟩ := evaluate_violation_ok_spec ev trace text json hok
      rw [heq1, heq2]
      rfl
  · intro ev trace text json b rs hev hk
    cases hok : orderClauseOk ev.trace.order_violation with
    | false =>
      rw [herr ev trace text json hok] at hev
      cases hev
    | true =>
      obtain ⟨rs0, heq, hw, -⟩ := evaluate_violation_ok_spec ev trace text json hok
      rw [heq] at hev
      simp only [Except.ok.injEq, Prod.mk.injEq] at hev
      rw [← hev.2]
      exact hw hk
  · intro ev trace text json h0
    have hnone : ev.trace.order_violation = none := by
      cases hoc : ev.trace.order_violation with
      | none => rfl
      | some o =>
        exfalso
        simp only [numSupportedClauses, hoc, countOpt] at h0
        omega
    have hok : orderClauseOk ev.trace.order_violation = true := by
      rw [hnone]
      rfl
    obtain ⟨rs, heq, -, hno⟩ := evaluate_violation_ok_spec ev trace text json hok
    have hval : (decide (numSupportedClauses ev ≠ 0) &&
        clausesHold ev trace text json) = false := by
      simp [h0]
    rw [hval] at heq
    exact ⟨rs, heq, hno h0⟩
  · intro ev trace text json
    constructor
    · intro hev
      cases hok : orderClauseOk ev.trace.order_violation with
      | false => exact (orderClauseOk_false_iff ev.trace.order_violation).mp hok
      | true =>
        obtain ⟨rs, heq, -, -⟩ := evaluate_violation_ok_spec ev trace text json hok
        rw [heq] at hev
        cases hev
    · intro hbad
      exact herr ev trace text json
        ((orderClauseOk_false_iff ev.trace.order_violation).mpr hbad)

/-- C2 witness: the theorem applied to concrete predicates: one with a single
satisfied trace clause and an unsupported key, one with only unsupported
keys, and one whose order_violation pair has a single entry, which raises the
IndexError instead of returning. -/
theorem C2_evaluate_violation_witness :
    (∃ rs, evaluate_violation
        ⟨⟨some ["lookup"], none, none, ["mystery"]⟩, ⟨none, none, []⟩, ⟨none, none, []⟩⟩
        ⟨[⟨"lookup", []⟩]⟩ "" none = .ok (true, rs)) ∧
    (∃ rs, evaluate_violation
        ⟨⟨none, none, none, ["mystery"]⟩, ⟨none, none, []⟩, ⟨none, none, []⟩⟩
        ⟨[⟨"lookup", []⟩]⟩ "" none = .ok (false, rs) ∧
      Reason.noEvaluablePredicate ∈ rs) ∧
    evaluate_violation
        ⟨⟨none, none, some ⟨some ["solo"]⟩, []⟩, ⟨none, none, []⟩, ⟨none, none, []⟩⟩
        ⟨[⟨"lookup", []⟩]⟩ "" none = .error EvalError.indexError := by
  refine ⟨?_, ?_, ?_⟩
  · exact (C2_evaluate_violation.1
      ⟨⟨some ["lookup"], none, none, ["mystery"]⟩, ⟨none, none, []⟩, ⟨none, none, []⟩⟩
      ⟨[⟨"lookup", []⟩]⟩ "" none).mpr ⟨by decide, by rfl⟩
  · exact C2_evaluate_violation.2.2.2.1
      ⟨⟨none, none, none, ["mystery"]⟩, ⟨none, none, []⟩, ⟨none, none, []⟩⟩
      ⟨[⟨"lookup", []⟩]⟩ "" none rfl
  · exact (C2_evaluate_violation.2.2.2.2
      ⟨⟨none, none, some ⟨some ["solo"]⟩, []⟩, ⟨none, none, []⟩, ⟨none, none, []⟩⟩
      ⟨[⟨"lookup", []⟩]⟩ "" none).mpr ⟨⟨some ["solo"]⟩, ["solo"], rfl, rfl, by decide⟩

/-! ### C5 and C10: the aggregate mutation score
Embeds the statistics block of main in scripts/run_mutation_testing.py.
Python float division of non-negative counts is modeled over the rationals. -/

structure MutationResult where
  mutant_id : String
  severity : String
  category : String
  intent : String
  activated : Bool
  killed : Bool
  activation_attempts : Nat
  test_output : String

def activatedResults (results : List MutationResult) : List MutationResult :=
  results.filter fun r => r.activated

def inconclusiveResults (results : List MutationResult) : List MutationResult :=
  results.filter fun r => !r.activated

def killedResults (results : List MutationResult) : List MutationResult :=
  (activatedResults results).filter fun r => r.killed

def survivedResults (results : List MutationResult) : List MutationResult :=
  (activatedResults results).filter fun r => !r.killed

def activated_count (results : List MutationResult) : Nat :=
  (activatedResults results).length

def killed_count (results : List MutationResult) : Nat :=
  (killedResults results).length

/-- The aggregate score: killed over activated when any mutant activated,
zero otherwise. -/
def mutation_score (results : List MutationResult) : ℚ :=
  if 0 < activated_count results then
    (killed_count results : ℚ) / (activated_count results : ℚ)
  else 0

theorem killed_count_le_activated_count (results : List MutationResult) :
    killed_count results ≤ activated_count results :=
  List.length_filter_le _ _

/-- C5: the aggregate mutation score is killed over activated, lies in the
unit interval, and a mutant that never activated contributes to neither
count: it is neither killed nor survived, only inconclusive, and leaves the
score unchanged. -/
theorem C5_mutation_score :
    (∀ results : List MutationResult, 0 < activated_count results →
      mutation_score results = (killed_count results : ℚ) / (activated_count results : ℚ)) ∧
    (∀ results : List MutationResult,
      0 ≤ mutation_score results ∧ mutation_score results ≤ 1) ∧
    (∀ (r : MutationResult) (results : List MutationResult), r.activated = false →
      killed_count (r :: results) = killed_count results ∧
      activated_count (r :: results) = activated_count results ∧
      (survivedResults (r :: results)).length = (survivedResults results).length ∧
      (inconclusiveResults (r :: results)).length = (inconclusiveResults results).length + 1 ∧
      mutation_score (r :: results) = mutation_score results) := by
  refine ⟨?_, ?_, ?_⟩
  · intro results h
    simp [mutation_score, h]
  · intro results
    by_cases h : 0 < activated_count results
    · have hk := killed_count_le_activated_count results
      have hpos : (0 : ℚ) < (activated_count results : ℚ) := by
        exact_mod_cast h
      constructor
      · simp only [mutation_score, if_pos h]
        positivity
      · simp only [mutation_score, if_pos h]
        rw [div_le_one hpos]
        exact_mod_cast hk
    · simp [mutation_score, h]
  · intro r results hr
    have hact : activatedResults (r :: results) = activatedResults results := by
      simp [activatedResults, List.filter, hr]
    have hincl : inconclusiveResults (r :: results) = r :: inconclusiveResults results := by
      simp [inconclusiveResults, List.filter, hr]
    refine ⟨?_, ?_, ?_, ?_, ?_⟩
    · simp [killed_count, killedResults, hact]
    · simp [activated_count, hact]
    · simp [survivedResults, hact]
    · simp [hincl]
    · simp [mutation_score, activated_count, killed_count, killedResults, hact]

/-- C5 witness: the theorem applied to a concrete run with one killed
activated mutant and one surviving activated mutant: the score is one half,
within bounds, and adding an inconclusive mutant changes neither the counts
nor the score. -/
theorem C5_mutation_score_witness :
    mutation_score
        [⟨"m1", "high", "c", "i", true, true, 1, ""⟩,
         ⟨"m2", "high", "c", "i", true, false, 1, ""⟩] = 1 / 2 ∧
    (0 : ℚ) ≤ 1 / 2 ∧ (1 : ℚ) / 2 ≤ 1 ∧
    mutation_score
        [⟨"m3", "low", "c", "i", false, false, 5, ""⟩,
         ⟨"m1", "high", "c", "i", true, true, 1, ""⟩,
         ⟨"m2", "high", "c", "i", true, false, 1, ""⟩] = 1 / 2 := by
  have hL : (0 : Nat) < activated_count
      [⟨"m1", "high", "c", "i", true, true, 1, ""⟩,
       ⟨"m2", "high", "c", "i", true, false, 1, ""⟩] := by decide
  have h1 := C5_mutation_score.1
    [⟨"m1", "high", "c", "i", true, true, 1, ""⟩,
     ⟨"m2", "high", "c", "i", true, false, 1, ""⟩] hL
  have h2 := (C5_mutation_score.2.2
    ⟨"m3", "low", "c", "i", false, false, 5, ""⟩
    [⟨"m1", "high", "c", "i", true, true, 1, ""⟩,
     ⟨"m2", "high", "c", "i", true, false, 1, ""⟩] rfl).2.2.2.2
  have hscore : mutation_score
      [⟨"m1", "high", "c", "i", true, true, 1, ""⟩,
       ⟨"m2", "high", "c", "i", true, false, 1, ""⟩] = 1 / 2 := by
    rw [h1]
    norm_num [killed_count, killedResults, activatedResults, activated_count,
      List.filter]
  refine ⟨hscore, by norm_num, by norm_num, ?_⟩
  rw [h2, hscore]

/-- C10: computing the score is total and never divides by zero: whenever no
mutant activated the reported score is exactly zero. -/
theorem C10_score_no_division_by_zero :
    ∀ results : List MutationResult, activated_count results = 0 →
      mutation_score results = 0 := by
  intro results h
  simp [mutation_score, h]

/-- C10 witness: the theorem applied to the empty run and to a run whose only
mutant never activated. -/
theorem C10_score_no_division_by_zero_witness :
    mutation_score [] = 0 ∧
    mutation_score [⟨"m1", "high", "c", "i", false, false, 5, ""⟩] = 0 := by
  refine ⟨C10_score_no_division_by_zero [] rfl,
    C10_score_no_division_by_zero [⟨"m1", "high", "c", "i", false, false, 5, ""⟩] rfl⟩

/-! ### C7: the mutation attempt loop
Embeds the retry loop of run_mutation_test in scripts/run_mutation_testing.py.
The external effects of one attempt are abstracted by an oracle indexed by
the zero-based attempt number: none models a generator exception (the loop
continues, keeping the previous artifacts), and some (m, act) models a fresh
mutant m whose activation probe reported act (a probe exception is reported
as act false by the source). Consuming a new oracle entry on every attempt is
exactly the freshly-generated-variant behavior. -/

structure MutantArtifacts where
  prompt : String
  tool_descriptions : List (String × String)

/-- The for-loop over range max_attempts: i is the current zero-based
attempt, rem the remaining iterations, prev the last generated artifacts and
attempts the counter set to attempt + 1 at the top of each iteration. -/
def mutationAttemptLoopAux (genProbe : Nat → Option (MutantArtifacts × Bool)) :
    Nat → Nat → Option MutantArtifacts → Nat → Bool × Nat × Option MutantArtifacts
  | _, 0, prev, attempts => (false, attempts, prev)
  | i, rem + 1, prev, _ =>
    match genProbe i with
    | none => mutationAttemptLoopAux genProbe (i + 1) rem prev (i + 1)
    | some (m, act) =>
      if act then (true, i + 1, some m)
      else mutationAttemptLoopAux genProbe (i + 1) rem (some m) (i + 1)

def mutationAttemptLoop (genProbe : Nat → Option (MutantArtifacts × Bool))
    (max_attempts : Nat) : Bool × Nat × Option MutantArtifacts :=
  mutationAttemptLoopAux genProbe 0 max_attempts none 0

/-- Embedding of run_mutation_test: run the attempt loop; if it never
activated (or generation never succeeded) return the inconclusive record,
otherwise run the suite against the activated mutant and report killed when
the exit code is non-zero. -/
def run_mutation_test (genProbe : Nat → Option (MutantArtifacts × Bool))
    (max_attempts : Nat) (runSuite : MutantArtifacts → Int × String)
    (mutant_id severity category intent : String) : MutationResult :=
  match mutationAttemptLoop genProbe max_attempts with
  | (activated, attempts, arts) =>
    match arts, activated with
    | some m, true =>
      let r := runSuite m
      ⟨mutant_id, severity, category, intent, true, r.1 ≠ 0, attempts, r.2⟩
    | some _, false => ⟨mutant_id, severity, category, intent, false, false, attempts, ""⟩
    | none, _ => ⟨mutant_id, severity, category, intent, false, false, attempts, ""⟩

/-- The driver loop of main appends one result per configured mutation. -/
def runAllMutations (genProbeFor : Nat → Nat → Option (MutantArtifacts × Bool))
    (max_attempts : Nat) (runSuite : MutantArtifacts → Int × String)
    (mutations : List (String × String × String × String)) : List MutationResult :=
  (List.range mutations.length).zip mutations |>.map fun p =>
    run_mutation_test (genProbeFor p.1) max_attempts runSuite
      p.2.1 p.2.2.1 p.2.2.2.1 p.2.2.2.2

/-- Whether the oracle reports an activating attempt at index i. -/
def activatingAt (genProbe : Nat → Option (MutantArtifacts × Bool)) (i : Nat) : Bool :=
  match genProbe i with
  | some (_, act) => act
  | none => false

theorem mutationAttemptLoopAux_step_none (genProbe : Nat → Option (MutantArtifacts × Bool))
    (i rem : Nat) (prev : Option MutantArtifacts) (attempts : Nat)
    (h : genProbe i = none) :
    mutationAttemptLoopAux genProbe i (rem + 1) prev attempts =
      mutationAttemptLoopAux genProbe (i + 1) rem prev (i + 1) := by
  simp [mutationAttemptLoopAux, h]

theorem mutationAttemptLoopAux_step_activated (genProbe : Nat → Option (MutantArtifacts × Bool))
    (i rem : Nat) (prev : Option MutantArtifacts) (attempts : Nat) (m : MutantArtifacts)
    (h : genProbe i = some (m, true)) :
    mutationAttemptLoopAux genProbe i (rem + 1) prev attempts = (true, i + 1, some m) := by
  simp [mutationAttemptLoopAux, h]

theorem mutationAttemptLoopAux_step_inactive (genProbe : Nat → Option (MutantArtifacts × Bool))
    (i rem : Nat) (prev : Option MutantArtifacts) (attempts : Nat) (m : MutantArtifacts)
    (h : genProbe i = some (m, false)) :
    mutationAttemptLoopAux genProbe i (rem + 1) prev attempts =
      mutationAttemptLoopAux genProbe (i + 1) rem (some m) (i + 1) := by
  simp [mutationAttemptLoopAux, h]

theorem mutationAttemptLoopAux_attempts_le (genProbe : Nat → Option (MutantArtifacts × Bool)) :
    ∀ (rem i : Nat) (prev : Option MutantArtifacts) (attempts : Nat),
      attempts ≤ i → (mutationAttemptLoopAux genProbe i rem prev attempts).2.1 ≤ i + rem := by
  intro rem
  induction rem with
  | zero =>
    intro i prev attempts h
    have : (mutationAttemptLoopAux genProbe i 0 prev attempts).2.1 = attempts := rfl
    omega
  | succ rem ih =>
    intro i prev attempts h
    cases hbg : genProbe i with
    | none =>
      rw [mutationAttemptLoopAux_step_none genProbe i rem prev attempts hbg]
      have := ih (i + 1) prev (i + 1) (Nat.le_refl _)
      omega
    | some p =>
      obtain ⟨m, act⟩ := p
      cases act with
      | true =>
        rw [mutationAttemptLoopAux_step_activated genProbe i rem prev attempts m hbg]
        show i + 1 ≤ i + (rem + 1)
        omega
      | false =>
        rw [mutationAttemptLoopAux_step_inactive genProbe i rem prev attempts m hbg]
        have := ih (i + 1) (some m) (i + 1) (Nat.le_refl _)
        omega

theorem mutationAttemptLoopAux_not_activated (genProbe : Nat → Option (MutantArtifacts × Bool)) :
    ∀ (rem i : Nat) (prev : Option MutantArtifacts) (attempts : Nat),
      (∀ j, i ≤ j → j < i + rem → activatingAt genProbe j = false) →
      (mutationAttemptLoopAux genProbe i rem prev attempts).1 = false := by
  intro rem
  induction rem with
  | zero => intro i prev attempts _; rfl
  | succ rem ih =>
    intro i prev attempts hall
    cases hbg : genProbe i with
    | none =>
      rw [mutationAttemptLoopAux_step_none genProbe i rem prev attempts hbg]
      exact ih (i + 1) prev (i + 1) fun j h1 h2 => hall j (by omega) (by omega)
    | some p =>
      obtain ⟨m, act⟩ := p
      have hai : activatingAt genProbe i = false := hall i (Nat.le_refl i) (by omega)
      have hf : act = false := by
        simpa [activatingAt, hbg] using hai
      subst hf
      rw [mutationAttemptLoopAux_step_inactive genProbe i rem prev attempts m hbg]
      exact ih (i + 1) (some m) (i + 1) fun j h1 h2 => hall j (by omega) (by omega)

theorem mutationAttemptLoopAux_first_activation
    (genProbe : Nat → Option (MutantArtifacts × Bool)) :
    ∀ (rem i : Nat) (prev : Option MutantArtifacts) (attempts : Nat) (k : Nat)
      (m : MutantArtifacts),
      i ≤ k → k < i + rem →
      (∀ j, i ≤ j → j < k → activatingAt genProbe j = false) →
      genProbe k = some (m, true) →
      mutationAttemptLoopAux genProbe i rem prev attempts = (true, k + 1, some m) := by
  intro rem
  induction rem with
  | zero => intro i prev attempts k m h1 h2; omega
  | succ rem ih =>
    intro i prev attempts k m h1 h2 hbefore hk
    by_cases hik : i = k
    · subst hik
      exact mutationAttemptLoopAux_step_activated genProbe i rem prev attempts m hk
    · have hlt : i < k := by omega
      have hai : activatingAt genProbe i = false := hbefore i (Nat.le_refl i) hlt
      cases hbg : genProbe i with
      | none =>
        rw [mutationAttemptLoopAux_step_none genProbe i rem prev attempts hbg]
        exact ih (i + 1) prev (i + 1) k m (by omega) (by omega)
          (fun j hj1 hj2 => hbefore j (by omega) hj2) hk
      | some p =>
        obtain ⟨m2, act⟩ := p
        have hf : act = false := by
          simpa [activatingAt, hbg] using hai
        subst hf
        rw [mutationAttemptLoopAux_step_inactive genProbe i rem prev attempts m2 hbg]
        exact ih (i + 1) (some m2) (i + 1) k m (by omega) (by omega)
          (fun j hj1 hj2 => hbefore j (by omega) hj2) hk

/-- C7: the engine makes at most max_attempts attempts, each consuming a
freshly generated variant from the oracle; it stops at the first attempt
whose probe activates and verifies that very variant against the suite
(killed is the non-zero-exit outcome); when no attempt activates the intent
is recorded inconclusive with activated false and killed false; and the
driver produces one result per configured intent. -/
theorem C7_attempt_loop :
    (∀ (genProbe : Nat → Option (MutantArtifacts × Bool)) (n : Nat)
        (runSuite : MutantArtifacts → Int × String) (a b c d : String),
      (run_mutation_test genProbe n runSuite a b c d).activation_attempts ≤ n) ∧
    (∀ (genProbe : Nat → Option (MutantArtifacts × Bool)) (n : Nat)
        (runSuite : MutantArtifacts → Int × String) (a b c d : String)
        (k : Nat) (m : MutantArtifacts),
      k < n → genProbe k = some (m, true) →
      (∀ j, j < k → activatingAt genProbe j = false) →
      run_mutation_test genProbe n runSuite a b c d =
        ⟨a, b, c, d, true, (runSuite m).1 ≠ 0, k + 1, (runSuite m).2⟩) ∧
    (∀ (genProbe : Nat → Option (MutantArtifacts × Bool)) (n : Nat)
        (runSuite : MutantArtifacts → Int × String) (a b c d : String),
      (∀ j, j < n → activatingAt genProbe j = false) →
      (run_mutation_test genProbe n runSuite a b c d).activated = false ∧
      (run_mutation_test genProbe n runSuite a b c d).killed = false) ∧
    (∀ (genProbeFor : Nat → Nat → Option (MutantArtifacts × Bool)) (n : Nat)
        (runSuite : MutantArtifacts → Int × String)
        (mutations : List (String × String × String × String)),
      (runAllMutations genProbeFor n runSuite mutations).length = mutations.length) := by
  refine ⟨?_, ?_, ?_, ?_⟩
  · intro genProbe n runSuite a b c d
    have h := mutationAttemptLoopAux_attempts_le genProbe n 0 none 0 (Nat.le_refl 0)
    unfold run_mutation_test mutationAttemptLoop
    rcases hres : mutationAttemptLoopAux genProbe 0 n none 0 with ⟨act, attempts, arts⟩
    rw [hres] at h
    have h2 : attempts ≤ 0 + n := h
    cases arts with
    | none => exact (by omega : attempts ≤ n)
    | some m =>
      cases act with
      | true => exact (by omega : attempts ≤ n)
      | false => exact (by omega : attempts ≤ n)
  · intro genProbe n runSuite a b c d k m hk hgen hbefore
    have h := mutationAttemptLoopAux_first_activation genProbe n 0 none 0 k m
      (Nat.zero_le k) (by omega) (fun j _ hj => hbefore j hj) hgen
    unfold run_mutation_test mutationAttemptLoop
    rw [h]
  · intro genProbe n runSuite a b c d hall
    have h := mutationAttemptLoopAux_not_activated genProbe n 0 none 0
      (fun j _ hj => hall j (by omega))
    unfold run_mutation_test mutationAttemptLoop
    rcases hres : mutationAttemptLoopAux genProbe 0 n none 0 with ⟨act, attempts, arts⟩
    rw [hres] at h
    have h2 : act = false := h
    subst h2
    cases arts with
    | none => exact ⟨rfl, rfl⟩
    | some m => exact ⟨rfl, rfl⟩
  · intro genProbeFor n runSuite mutations
    simp [runAllMutations]

/-- C7 witness: an oracle whose first attempt raises, whose second attempt
generates a non-activating variant and whose third attempt activates: the
loop stops at attempt three and the suite verdict of that variant is
reported; an oracle that never activates in five attempts is inconclusive. -/
theorem C7_attempt_loop_witness :
    run_mutation_test
        (fun i => if i = 0 then none
          else if i = 1 then some (⟨"v1", []⟩, false)
          else some (⟨"v2", []⟩, true))
        5 (fun m => if m.prompt = "v2" then (1, "failing") else (0, "ok"))
        "m" "high" "c" "i"
      = ⟨"m", "high", "c", "i", true, true, 3, "failing"⟩ ∧
    (run_mutation_test (fun _ => some (⟨"v", []⟩, false)) 5
        (fun _ => (0, "ok")) "m" "high" "c" "i").activated = false ∧
    (run_mutation_test (fun _ => some (⟨"v", []⟩, false)) 5
        (fun _ => (0, "ok")) "m" "high" "c" "i").killed = false := by
  refine ⟨?_, ?_, ?_⟩
  · have h := C7_attempt_loop.2.1
      (fun i => if i = 0 then none
        else if i = 1 then some (⟨"v1", []⟩, false)
        else some (⟨"v2", []⟩, true))
      5 (fun m => if m.prompt = "v2" then (1, "failing") else (0, "ok"))
      "m" "high" "c" "i" 2 ⟨"v2", []⟩ (by omega) rfl ?hq
    case hq =>
      intro j hj
      interval_cases j <;> rfl
    rw [h]
    simp
  · exact (C7_attempt_loop.2.2.1 (fun _ => some (⟨"v", []⟩, false)) 5
      (fun _ => (0, "ok")) "m" "high" "c" "i" (fun j _ => rfl)).1
  · exact (C7_attempt_loop.2.2.1 (fun _ => some (⟨"v", []⟩, false)) 5
      (fun _ => (0, "ok")) "m" "high" "c" "i" (fun j _ => rfl)).2

/-! ### C6: frame effect of the mutation run on the file system
The file-system effects of run_mutation_test are made explicit: an
association-list file system threaded through the attempt loop (which may
cache generated mutants) and the verification step (which writes the mutant
prompt and tool descriptions to two temporary files, invokes the suite with
those paths as the override environment variables, and removes the temporary
files in the finally block whether or not the suite run raises). The suite
subprocess itself is modeled as a pure reader of the file system; the claim
is about the writes performed by the engine. -/

def lookupFile : List (String × String) → String → Option String
  | [], _ => none
  | (k, v) :: rest, p => if k = p then some v else lookupFile rest p

structure FS where
  files : List (String × String)

def FS.read (fs : FS) (p : String) : Option String :=
  lookupFile fs.files p

def FS.write (fs : FS) (p content : String) : FS :=
  ⟨(p, content) :: fs.files⟩

def removeFile : List (String × String) → String → List (String × String)
  | [], _ => []
  | kv :: rest, p => if kv.1 = p then removeFile rest p else kv :: removeFile rest p

def FS.unlink (fs : FS) (p : String) : FS :=
  ⟨removeFile fs.files p⟩

theorem FS.read_write_eq (fs : FS) (p c : String) : (fs.write p c).read p = some c := by
  simp [FS.read, FS.write, lookupFile]

theorem FS.read_write_ne (fs : FS) (p c q : String) (h : p ≠ q) :
    (fs.write p c).read q = fs.read q := by
  simp [FS.read, FS.write, lookupFile, fun hp => h hp]

theorem FS.read_unlink_ne (fs : FS) (p q : String) (h : p ≠ q) :
    (fs.unlink p).read q = fs.read q := by
  show lookupFile (removeFile fs.files p) q = lookupFile fs.files q
  induction fs.files with
  | nil => rfl
  | cons kv rest ih =>
    by_cases hk : kv.1 = p
    · have hq : ¬ kv.1 = q := fun hqq => h (hk.symm.trans hqq)
      rw [show removeFile (kv :: rest) p = removeFile rest p from by
        simp [removeFile, hk]]
      rw [ih, show lookupFile (kv :: rest) q = lookupFile rest q from by
        simp [lookupFile, hq]]
    · rw [show removeFile (kv :: rest) p = kv :: removeFile rest p from by
        simp [removeFile, hk]]
      by_cases hq : kv.1 = q
      · simp [lookupFile, hq]
      · simp [lookupFile, hq, ih]

/-- The attempt loop with its cache writes made explicit. -/
def mutationAttemptLoopFS (genProbe : Nat → Option (MutantArtifacts × Bool))
    (cachePath : Option (Nat → String)) :
    Nat → Nat → Option MutantArtifacts → Nat → FS → Bool × Nat × Option MutantArtifacts × FS
  | _, 0, prev, attempts, fs => (false, attempts, prev, fs)
  | i, rem + 1, prev, _, fs =>
    match genProbe i with
    | none => mutationAttemptLoopFS genProbe cachePath (i + 1) rem prev (i + 1) fs
    | some (m, act) =>
      let fs1 := match cachePath with
        | some cp => fs.write (cp i) m.prompt
        | none => fs
      if act then (true, i + 1, some m, fs1)
      else mutationAttemptLoopFS genProbe cachePath (i + 1) rem (some m) (i + 1) fs1

inductive RunOutcome where
  | ok (code : Int) (out : String)
  | raised

/-- One suite invocation: the override environment passed to the subprocess
and the file system visible to it. -/
structure TestInvocation where
  envPromptPath : String
  envDescPath : String
  fsAtCall : FS

/-- Embedding of run_mutation_test with file-system effects: probes receive
the mutant in memory; verification writes the mutant prompt and serialized
tool descriptions to the two temporary paths, passes exactly those paths as
the override environment, and unlinks both temporary files in the finally
block; a raised suite run propagates (result none) after the cleanup. -/
def run_mutation_test_fs (fs0 : FS) (genProbe : Nat → Option (MutantArtifacts × Bool))
    (max_attempts : Nat) (cachePath : Option (Nat → String))
    (tmpPromptPath tmpDescPath : String)
    (runTests : FS → String → String → RunOutcome)
    (yamlDump : List (String × String) → String)
    (mutant_id severity category intent : String) :
    Option MutationResult × FS × List TestInvocation :=
  match mutationAttemptLoopFS genProbe cachePath 0 max_attempts none 0 fs0 with
  | (activated, attempts, arts, fs1) =>
    match arts, activated with
    | some m, true =>
      let fs2 := fs1.write tmpPromptPath m.prompt
      let fs3 := fs2.write tmpDescPath (yamlDump m.tool_descriptions)
      let inv : TestInvocation := ⟨tmpPromptPath, tmpDescPath, fs3⟩
      let fs4 := (fs3.unlink tmpPromptPath).unlink tmpDescPath
      (match runTests fs3 tmpPromptPath tmpDescPath with
       | .ok code out =>
         (some ⟨mutant_id, severity, category, intent, true, code ≠ 0, attempts, out⟩, fs4, [inv])
       | .raised => (none, fs4, [inv]))
    | some _, false =>
      (some ⟨mutant_id, severity, category, intent, false, false, attempts, ""⟩, fs1, [])
    | none, _ =>
      (some ⟨mutant_id, severity, category, intent, false, false, attempts, ""⟩, fs1, [])

theorem mutationAttemptLoopFS_read (genProbe : Nat → Option (MutantArtifacts × Bool))
    (cachePath : Option (Nat → String)) (promptPath : String)
    (hcache : ∀ cp, cachePath = some cp → ∀ i, cp i ≠ promptPath) :
    ∀ (rem i : Nat) (prev : Option MutantArtifacts) (attempts : Nat) (fs : FS),
      (mutationAttemptLoopFS genProbe cachePath i rem prev attempts fs).2.2.2.read promptPath
        = fs.read promptPath := by
  intro rem
  induction rem with
  | zero => intro i prev attempts fs; rfl
  | succ rem ih =>
    intro i prev attempts fs
    cases hbg : genProbe i with
    | none =>
      show (mutationAttemptLoopFS genProbe cachePath i (rem + 1) prev attempts fs).2.2.2.read
          promptPath = fs.read promptPath
      rw [show mutationAttemptLoopFS genProbe cachePath i (rem + 1) prev attempts fs
          = mutationAttemptLoopFS genProbe cachePath (i + 1) rem prev (i + 1) fs from by
        simp [mutationAttemptLoopFS, hbg]]
      exact ih (i + 1) prev (i + 1) fs
    | some p =>
      obtain ⟨m, act⟩ := p
      have hfs1 : ∀ fsx : FS,
          (match cachePath with
           | some cp => fsx.write (cp i) m.prompt
           | none => fsx).read promptPath = fsx.read promptPath := by
        intro fsx
        cases hcp : cachePath with
        | none => rfl
        | some cp =>
          exact FS.read_write_ne fsx (cp i) m.prompt promptPath (hcache cp hcp i)
      cases act with
      | true =>
        rw [show mutationAttemptLoopFS genProbe cachePath i (rem + 1) prev attempts fs
            = (true, i + 1, some m,
                match cachePath with
                | some cp => fs.write (cp i) m.prompt
                | none => fs) from by
          simp [mutationAttemptLoopFS, hbg]]
        exact hfs1 fs
      | false =>
        rw [show mutationAttemptLoopFS genProbe cachePath i (rem + 1) prev attempts fs
            = mutationAttemptLoopFS genProbe cachePath (i + 1) rem (some m) (i + 1)
                (match cachePath with
                 | some cp => fs.write (cp i) m.prompt
                 | none => fs) from by
          simp [mutationAttemptLoopFS, hbg]]
        rw [ih (i + 1) (some m) (i + 1) _]
        exact hfs1 fs

/-- C6: the mutation engine never writes the original prompt file: after any
run (activation or not, suite ok or raised) the file at the original prompt
path is unchanged, and every suite invocation goes through the isolated
override channel: its override environment names exactly the temporary
files, which differ from the original path, and the file system it sees
carries the mutant prompt and serialized tool descriptions at those
temporary paths while the original file still has its original content. -/
theorem C6_no_write_to_original :
    ∀ (fs0 : FS) (genProbe : Nat → Option (MutantArtifacts × Bool)) (n : Nat)
      (cachePath : Option (Nat → String)) (tmpP tmpD promptPath : String)
      (runTests : FS → String → String → RunOutcome)
      (yamlDump : List (String × String) → String) (a b c d : String),
      tmpP ≠ promptPath → tmpD ≠ promptPath → tmpP ≠ tmpD →
      (∀ cp, cachePath = some cp → ∀ i, cp i ≠ promptPath) →
      ((run_mutation_test_fs fs0 genProbe n cachePath tmpP tmpD runTests yamlDump
          a b c d).2.1.read promptPath = fs0.read promptPath ∧
       ∀ inv ∈ (run_mutation_test_fs fs0 genProbe n cachePath tmpP tmpD runTests yamlDump
          a b c d).2.2,
         inv.envPromptPath = tmpP ∧ inv.envDescPath = tmpD ∧
         inv.envPromptPath ≠ promptPath ∧ inv.envDescPath ≠ promptPath ∧
         inv.fsAtCall.read promptPath = fs0.read promptPath ∧
         ∃ m : MutantArtifacts,
           inv.fsAtCall.read tmpP = some m.prompt ∧
           inv.fsAtCall.read tmpD = some (yamlDump m.tool_descriptions)) := by
  intro fs0 genProbe n cachePath tmpP tmpD promptPath runTests yamlDump a b c d hP hD hPD hcache
  have hloop := mutationAttemptLoopFS_read genProbe cachePath promptPath hcache n 0 none 0 fs0
  unfold run_mutation_test_fs
  rcases hres : mutationAttemptLoopFS genProbe cachePath 0 n none 0 fs0
    with ⟨act, attempts, arts, fs1⟩
  rw [hres] at hloop
  have hfs1 : fs1.read promptPath = fs0.read promptPath := hloop
  cases arts with
  | none =>
    cases act with
    | true => exact ⟨hfs1, by intro inv hinv; cases hinv⟩
    | false => exact ⟨hfs1, by intro inv hinv; cases hinv⟩
  | some m =>
    cases act with
    | false => exact ⟨hfs1, by intro inv hinv; cases hinv⟩
    | true =>
      have h3P : ((fs1.write tmpP m.prompt).write tmpD
          (yamlDump m.tool_descriptions)).read promptPath = fs0.read promptPath := by
        rw [FS.read_write_ne _ tmpD _ promptPath hD, FS.read_write_ne _ tmpP _ promptPath hP,
          hfs1]
      have h4 : ((((fs1.write tmpP m.prompt).write tmpD
            (yamlDump m.tool_descriptions)).unlink tmpP).unlink tmpD).read promptPath
          = fs0.read promptPath := by
        rw [FS.read_unlink_ne _ tmpD promptPath hD, FS.read_unlink_ne _ tmpP promptPath hP,
          h3P]
      have hinvprops : ∀ inv ∈ [(⟨tmpP, tmpD,
            (fs1.write tmpP m.prompt).write tmpD (yamlDump m.tool_descriptions)⟩ :
            TestInvocation)],
          inv.envPromptPath = tmpP ∧ inv.envDescPath = tmpD ∧
          inv.envPromptPath ≠ promptPath ∧ inv.envDescPath ≠ promptPath ∧
          inv.fsAtCall.read promptPath = fs0.read promptPath ∧
          ∃ mm : MutantArtifacts,
            inv.fsAtCall.read tmpP = some mm.prompt ∧
            inv.fsAtCall.read tmpD = some (yamlDump mm.tool_descriptions) := by
        intro inv hinv
        rcases List.mem_singleton.mp hinv with rfl
        refine ⟨rfl, rfl, hP, hD, h3P, m, ?_, ?_⟩
        · rw [FS.read_write_ne _ tmpD _ tmpP (fun h => hPD h.symm), FS.read_write_eq]
        · rw [FS.read_write_eq]
      dsimp only
      cases hrt : runTests ((fs1.write tmpP m.prompt).write tmpD
          (yamlDump m.tool_descriptions)) tmpP tmpD with
      | ok code out => exact ⟨h4, hinvprops⟩
      | raised => exact ⟨h4, hinvprops⟩

/-- C6 witness: the theorem applied to a concrete run in which the mutant
activates on the first attempt and the suite kills it: the original prompt
file still holds its original content afterwards. -/
theorem C6_no_write_to_original_witness :
    (run_mutation_test_fs ⟨[("prompt.txt", "ORIG")]⟩
        (fun _ => some (⟨"MUT", [("t", "d")]⟩, true)) 5 none "tmp1" "tmp2"
        (fun _ _ _ => RunOutcome.ok 1 "out") (fun _ => "DUMP")
        "m" "h" "c" "i").2.1.read "prompt.txt" = some "ORIG" := by
  have h := C6_no_write_to_original ⟨[("prompt.txt", "ORIG")]⟩
    (fun _ => some (⟨"MUT", [("t", "d")]⟩, true)) 5 none "tmp1" "tmp2" "prompt.txt"
    (fun _ _ _ => RunOutcome.ok 1 "out") (fun _ => "DUMP") "m" "h" "c" "i"
    (by decide) (by decide) (by decide) (fun cp hcp => by cases hcp)
  rw [h.1]
  rfl

/-! ### C8 and C9: the convergence loop
Embeds compile_loop and focused_inner_loop from scripts/compile_prompt.py.
Test executions are abstracted by oracles indexed by the iteration number
(the targeted command contents do not affect control flow); everything the
loop itself computes (failing-id extraction, thresholds, iteration budgets,
the shrinking targeted subset) is embedded. Each outer iteration is recorded
so the branch decisions and iteration counts can be stated. The argparse
defaults are kept as named constants. -/

def inner_loop_threshold_default : Nat := 10
def max_iters_default : Nat := 6
def max_inner_iters_default : Nat := 8

/-- The inner loop of focused_inner_loop: iteration i of at most maxInner;
the first iteration reuses the outer failure output instead of running the
targeted tests; a zero exit promotes the candidate and succeeds; otherwise
the targeted subset shrinks to the still-failing intersection whenever some
test newly passes, and the loop gives up after the last iteration. The fuel
argument mirrors the range bound and is instantiated with maxInner. -/
def focusedInnerGo (runs : Nat → Int × String) (outerOut : String)
    (origFailing : List String) (maxInner : Nat) : Nat → Nat → List String → Bool × Nat
  | i, 0, _ => (false, i - 1)
  | i, fuel + 1, failing =>
    let r := if i = 1 then ((1 : Int), outerOut) else runs i
    if r.1 = 0 then (true, i)
    else
      let failing2 :=
        if r.2 ≠ "" then
          let still := extract_failing_test_ids r.2
          let newly := origFailing.filter fun t => !still.contains t
          if !newly.isEmpty then still.filter (fun t => origFailing.contains t) else failing
        else failing
      if i = maxInner then (false, i)
      else focusedInnerGo runs outerOut origFailing maxInner (i + 1) fuel failing2

/-- Embedding of focused_inner_loop: returns (success, iterations executed). -/
def focused_inner_loop (runs : Nat → Int × String) (outerOut : String)
    (failing_tests : List String) (maxInner : Nat) : Bool × Nat :=
  focusedInnerGo runs outerOut failing_tests maxInner 1 maxInner failing_tests

/-- The branch taken by one outer iteration. -/
inductive Branch where
  | passed
  | innerEntered (success : Bool) (innerIters : Nat)
  | repair
deriving DecidableEq

structure IterRecord where
  code : Int
  failingCount : Nat
  branch : Branch
deriving DecidableEq

/-- The outcome of one outer test run: iteration one may reuse the
pre-supplied initial results (with a failing exit code). -/
def outerRun (runTests : Nat → Int × String) (initial : Option String) (i : Nat) :
    Int × String :=
  match initial with
  | some s => if i = 1 then ((1 : Int), s) else runTests i
  | none => runTests i

/-- The outer loop of compile_loop: run (or reuse) the suite; exit 0 succeeds;
otherwise enter the focused inner loop exactly when the failing-id count is
strictly between zero and the threshold (aborting if it fails, rerunning the
full suite if it succeeds), and otherwise send the report to the repair agent
and iterate. Exhausting the budget returns exit code 2. -/
def outerGo (runTests : Nat → Int × String) (innerRuns : Nat → Nat → Int × String)
    (threshold maxInner : Nat) (initial : Option String) :
    Nat → Nat → List IterRecord → Int × List IterRecord
  | _, 0, log => (2, log.reverse)
  | i, fuel + 1, log =>
    let r := outerRun runTests initial i
    if r.1 = 0 then (0, ((⟨r.1, 0, Branch.passed⟩ : IterRecord) :: log).reverse)
    else
      let failing := extract_failing_test_ids r.2
      if 0 < failing.length ∧ failing.length < threshold then
        let ir := focused_inner_loop (innerRuns i) r.2 failing maxInner
        if ir.1 then
          outerGo runTests innerRuns threshold maxInner initial (i + 1) fuel
            (⟨r.1, failing.length, Branch.innerEntered ir.1 ir.2⟩ :: log)
        else (2, ((⟨r.1, failing.length, Branch.innerEntered ir.1 ir.2⟩ : IterRecord)
            :: log).reverse)
      else
        outerGo runTests innerRuns threshold maxInner initial (i + 1) fuel
          (⟨r.1, failing.length, Branch.repair⟩ :: log)

/-- Embedding of compile_loop: returns (exit code, per-iteration record). -/
def compile_loop (runTests : Nat → Int × String) (innerRuns : Nat → Nat → Int × String)
    (threshold maxInner maxIters : Nat) (initial : Option String) : Int × List IterRecord :=
  outerGo runTests innerRuns threshold maxInner initial 1 maxIters []

theorem focusedInnerGo_le (runs : Nat → Int × String) (outerOut : String)
    (origFailing : List String) (maxInner : Nat) :
    ∀ (fuel i : Nat) (failing : List String), i + fuel ≤ maxInner + 1 →
      (focusedInnerGo runs outerOut origFailing maxInner i fuel failing).2 ≤ maxInner := by
  intro fuel
  induction fuel with
  | zero =>
    intro i failing h
    show i - 1 ≤ maxInner
    omega
  | succ fuel ih =>
    intro i failing h
    show (if (if i = 1 then ((1 : Int), outerOut) else runs i).1 = 0 then (true, i)
        else _).2 ≤ maxInner
    by_cases hc : (if i = 1 then ((1 : Int), outerOut) else runs i).1 = 0
    · rw [if_pos hc]
      show i ≤ maxInner
      omega
    · rw [if_neg hc]
      dsimp only
      by_cases hi : i = maxInner
      · rw [if_pos hi]
        show i ≤ maxInner
        omega
      · rw [if_neg hi]
        exact ih (i + 1) _ (by omega)

theorem focused_inner_loop_le (runs : Nat → Int × String) (outerOut : String)
    (failing_tests : List String) (maxInner : Nat) :
    (focused_inner_loop runs outerOut failing_tests maxInner).2 ≤ maxInner :=
  focusedInnerGo_le runs outerOut failing_tests maxInner maxInner 1 failing_tests (by omega)

/-- The per-record invariant shared by the two loop claims: a failed
iteration entered the inner phase exactly when the failing count was strictly
between zero and the threshold, and any recorded inner phase ran at most
maxInner iterations. -/
def IterInvariant (threshold maxInner : Nat) (r : IterRecord) : Prop :=
  (r.code ≠ 0 →
    ((∃ s k, r.branch = Branch.innerEntered s k) ↔
      (0 < r.failingCount ∧ r.failingCount < threshold))) ∧
  (∀ s k, r.branch = Branch.innerEntered s k → k ≤ maxInner)

theorem outerGo_mem (runTests : Nat → Int × String) (innerRuns : Nat → Nat → Int × String)
    (threshold maxInner : Nat) (initial : Option String) :
    ∀ (fuel i : Nat) (log : List IterRecord),
      (∀ r ∈ log, IterInvariant threshold maxInner r) →
      ∀ r ∈ (outerGo runTests innerRuns threshold maxInner initial i fuel log).2,
        IterInvariant threshold maxInner r := by
  intro fuel
  induction fuel with
  | zero =>
    intro i log hlog r hr
    exact hlog r (List.mem_reverse.mp hr)
  | succ fuel ih =>
    intro i log hlog r hr
    rcases houter : outerRun runTests initial i with ⟨code, out⟩
    unfold outerGo at hr
    rw [houter] at hr
    dsimp only at hr
    by_cases hc : code = 0
    · rw [if_pos hc] at hr
      rcases List.mem_cons.mp (List.mem_reverse.mp hr) with rfl | hmem
      · refine ⟨fun hne => absurd hc hne, ?_⟩
        intro s k hbr
        cases hbr
      · exact hlog r hmem
    · rw [if_neg hc] at hr
      by_cases hthr : 0 < (extract_failing_test_ids out).length ∧
          (extract_failing_test_ids out).length < threshold
      · rw [if_pos hthr] at hr
        by_cases hs : (focused_inner_loop (innerRuns i) out
            (extract_failing_test_ids out) maxInner).1 = true
        · rw [if_pos hs] at hr
          refine ih (i + 1) _ ?_ r hr
          intro r2 hr2
          rcases List.mem_cons.mp hr2 with rfl | hmem
          · refine ⟨fun _ => ⟨fun _ => hthr, fun _ => ⟨_, _, rfl⟩⟩, ?_⟩
            intro s k hbr
            cases hbr
            exact focused_inner_loop_le _ _ _ _
          · exact hlog r2 hmem
        · rw [if_neg hs] at hr
          rcases List.mem_cons.mp (List.mem_reverse.mp hr) with rfl | hmem
          · refine ⟨fun _ => ⟨fun _ => hthr, fun _ => ⟨_, _, rfl⟩⟩, ?_⟩
            intro s k hbr
            cases hbr
            exact focused_inner_loop_le _ _ _ _
          · exact hlog r hmem
      · rw [if_neg hthr] at hr
        refine ih (i + 1) _ ?_ r hr
        intro r2 hr2
        rcases List.mem_cons.mp hr2 with rfl | hmem
        · refine ⟨fun _ => ⟨?_, fun hcount => absurd hcount hthr⟩, ?_⟩
          · rintro ⟨s, k, hbr⟩
            cases hbr
          · intro s k hbr
            cases hbr
        · exact hlog r2 hmem

theorem outerGo_length (runTests : Nat → Int × String) (innerRuns : Nat → Nat → Int × String)
    (threshold maxInner : Nat) (initial : Option String) :
    ∀ (fuel i : Nat) (log : List IterRecord),
      (outerGo runTests innerRuns threshold maxInner initial i fuel log).2.length
        ≤ fuel + log.length := by
  intro fuel
  induction fuel with
  | zero =>
    intro i log
    simp [outerGo]
  | succ fuel ih =>
    intro i log
    rcases houter : outerRun runTests initial i with ⟨code, out⟩
    unfold outerGo
    rw [houter]
    dsimp only
    by_cases hc : code = 0
    · rw [if_pos hc]
      simp
      omega
    · rw [if_neg hc]
      by_cases hthr : 0 < (extract_failing_test_ids out).length ∧
          (extract_failing_test_ids out).length < threshold
      · rw [if_pos hthr]
        by_cases hs : (focused_inner_loop (innerRuns i) out
            (extract_failing_test_ids out) maxInner).1 = true
        · rw [if_pos hs]
          have := ih (i + 1) (⟨code, (extract_failing_test_ids out).length,
            Branch.innerEntered (focused_inner_loop (innerRuns i) out
              (extract_failing_test_ids out) maxInner).1
              (focused_inner_loop (innerRuns i) out
                (extract_failing_test_ids out) maxInner).2⟩ :: log)
          simp only [List.length_cons] at this
          omega
        · rw [if_neg hs]
          simp
          omega
      · rw [if_neg hthr]
        have := ih (i + 1) (⟨code, (extract_failing_test_ids out).length,
          Branch.repair⟩ :: log)
        simp only [List.length_cons] at this
        omega

/-- A report with twelve distinct failing node ids and a summary line. -/
def twelveFailuresReport : String :=
  "FAILED tests/test_a.py::t1 - E\nFAILED tests/test_a.py::t2 - E\n" ++
  "FAILED tests/test_a.py::t3 - E\nFAILED tests/test_a.py::t4 - E\n" ++
  "FAILED tests/test_a.py::t5 - E\nFAILED tests/test_a.py::t6 - E\n" ++
  "FAILED tests/test_a.py::t7 - E\nFAILED tests/test_a.py::t8 - E\n" ++
  "FAILED tests/test_a.py::t9 - E\nFAILED tests/test_a.py::t10 - E\n" ++
  "FAILED tests/test_a.py::t11 - E\nFAILED tests/test_a.py::t12 - E\n12 failed"

/-- A report with two distinct failing node ids and a summary line. -/
def twoFailuresReport : String :=
  "FAILED tests/test_a.py::t1 - E\nFAILED tests/test_a.py::t2 - E\n2 failed"

/-- C8: an outer iteration whose suite run fails enters the inner (targeted)
phase exactly when the number of extracted failing ids is strictly between
zero and the threshold; in particular, with twelve failing ids and the
default threshold ten, all six default iterations stay in the outer phase
(repair branch) and the session exits with code 2, never entering the inner
phase. -/
theorem C8_inner_loop_threshold :
    (∀ (runTests : Nat → Int × String) (innerRuns : Nat → Nat → Int × String)
        (threshold maxInner maxIters : Nat) (initial : Option String),
      ∀ r ∈ (compile_loop runTests innerRuns threshold maxInner maxIters initial).2,
        r.code ≠ 0 →
          ((∃ s k, r.branch = Branch.innerEntered s k) ↔
            (0 < r.failingCount ∧ r.failingCount < threshold))) ∧
    compile_loop (fun _ => (1, twelveFailuresReport)) (fun _ _ => (0, ""))
        inner_loop_threshold_default max_inner_iters_default max_iters_default none
      = (2, List.replicate 6 ⟨1, 12, Branch.repair⟩) := by
  constructor
  · intro runTests innerRuns threshold maxInner maxIters initial r hr
    exact (outerGo_mem runTests innerRuns threshold maxInner initial maxIters 1 []
      (by intro r2 hr2; cases hr2) r hr).1
  · decide

/-- C8 witness: the iff applied to the first record of the twelve-failure
scenario: the record is a repair record, its failing count twelve is not
below the threshold ten, so no inner phase was entered. -/
theorem C8_inner_loop_threshold_witness :
    (⟨1, 12, Branch.repair⟩ : IterRecord) ∈
      (compile_loop (fun _ => (1, twelveFailuresReport)) (fun _ _ => (0, ""))
        inner_loop_threshold_default max_inner_iters_default max_iters_default none).2 ∧
    ¬ ∃ s k, (⟨1, 12, Branch.repair⟩ : IterRecord).branch = Branch.innerEntered s k := by
  have hmem : (⟨1, 12, Branch.repair⟩ : IterRecord) ∈
      (compile_loop (fun _ => (1, twelveFailuresReport)) (fun _ _ => (0, ""))
        inner_loop_threshold_default max_inner_iters_default max_iters_default none).2 := by
    decide
  refine ⟨hmem, ?_⟩
  have h := C8_inner_loop_threshold.1 (fun _ => (1, twelveFailuresReport))
    (fun _ _ => (0, "")) inner_loop_threshold_default max_inner_iters_default
    max_iters_default none ⟨1, 12, Branch.repair⟩ hmem (by decide)
  intro hex
  exact absurd (h.mp hex) (by decide)

/-- C9: the convergence loop always terminates within the budgets: the outer
loop performs at most maxIters iterations, and every inner-phase entry it
records performed at most maxInner inner iterations. -/
theorem C9_loop_termination :
    ∀ (runTests : Nat → Int × String) (innerRuns : Nat → Nat → Int × String)
      (threshold maxInner maxIters : Nat) (initial : Option String),
      (compile_loop runTests innerRuns threshold maxInner maxIters initial).2.length
          ≤ maxIters ∧
      ∀ r ∈ (compile_loop runTests innerRuns threshold maxInner maxIters initial).2,
        ∀ s k, r.branch = Branch.innerEntered s k → k ≤ maxInner := by
  intro runTests innerRuns threshold maxInner maxIters initial
  constructor
  · have h := outerGo_length runTests innerRuns threshold maxInner initial maxIters 1 []
    simpa using h
  · intro r hr
    exact (outerGo_mem runTests innerRuns threshold maxInner initial maxIters 1 []
      (by intro r2 hr2; cases hr2) r hr).2

/-- C9 witness: with two failing ids the loop enters the inner phase, which
exhausts exactly the default eight inner iterations and aborts; the theorem
bounds both the single outer iteration and the recorded inner count. -/
theorem C9_loop_termination_witness :
    (compile_loop (fun _ => (1, twoFailuresReport)) (fun _ _ => (1, "x"))
        inner_loop_threshold_default max_inner_iters_default max_iters_default none).2.length
      ≤ max_iters_default ∧
    (⟨1, 2, Branch.innerEntered false 8⟩ : IterRecord) ∈
      (compile_loop (fun _ => (1, twoFailuresReport)) (fun _ _ => (1, "x"))
        inner_loop_threshold_default max_inner_iters_default max_iters_default none).2 ∧
    (8 : Nat) ≤ max_inner_iters_default := by
  have hmem : (⟨1, 2, Branch.innerEntered false 8⟩ : IterRecord) ∈
      (compile_loop (fun _ => (1, twoFailuresReport)) (fun _ _ => (1, "x"))
        inner_loop_threshold_default max_inner_iters_default max_iters_default none).2 := by
    decide
  refine ⟨(C9_loop_termination (fun _ => (1, twoFailuresReport)) (fun _ _ => (1, "x"))
      inner_loop_threshold_default max_inner_iters_default max_iters_default none).1,
    hmem, ?_⟩
  exact (C9_loop_termination (fun _ => (1, twoFailuresReport)) (fun _ _ => (1, "x"))
      inner_loop_threshold_default max_inner_iters_default max_iters_default none).2
    ⟨1, 2, Branch.innerEntered false 8⟩ hmem false 8 rfl

end Tdad
